import Mathlib

set_option maxHeartbeats 1000000
set_option maxRecDepth 100000

namespace Pipeline

/-!
Shallow embedding of the transformation core of the clinicaltrials-neo4j
pipeline.  Strings are modelled as `List Char`; Python string operations
(`str.strip`, `str.lower`, `re.sub(r"\s+", " ", ·)`, `str.split`, …) are
embedded character by character over the ASCII alphabet the pipeline's
data uses.
-/

/-- The whitespace characters recognised by Python's `str.strip` / `\s`
(restricted to the ASCII range actually occurring in the data):
space, `\t`, `\n`, `\r`, `\v`, `\f`. -/
def isPySpace (c : Char) : Bool :=
  c.toNat = 32 || c.toNat = 9 || c.toNat = 10 || c.toNat = 13 ||
  c.toNat = 11 || c.toNat = 12

/-- Python `str.lower` on one character: map `'A'..'Z'` to `'a'..'z'`. -/
def pyLower (c : Char) : Char :=
  if 65 ≤ c.toNat ∧ c.toNat ≤ 90 then Char.ofNat (c.toNat + 32) else c

/-- Python `str.upper` on one character: map `'a'..'z'` to `'A'..'Z'`. -/
def pyUpper (c : Char) : Char :=
  if 97 ≤ c.toNat ∧ c.toNat ≤ 122 then Char.ofNat (c.toNat - 32) else c

/-- Python `str.strip()`: drop leading and trailing whitespace. -/
def pyStrip (s : List Char) : List Char :=
  ((s.dropWhile isPySpace).reverse.dropWhile isPySpace).reverse

/-- `re.sub(r"\s+", " ", s)`: replace each maximal run of whitespace by a
single space.  The boolean flag records whether the previous character was
part of a whitespace run. -/
def collapseWsAux : Bool → List Char → List Char
  | _, [] => []
  | prevSpace, c :: cs =>
    if isPySpace c then
      if prevSpace then collapseWsAux true cs else ' ' :: collapseWsAux true cs
    else c :: collapseWsAux false cs

def collapseWs (s : List Char) : List Char := collapseWsAux false s

/-- `normalize_string` from `src/utils/hashing.py`: empty input maps to the
empty string; otherwise strip, lowercase, then collapse whitespace runs. -/
def normalize_string (s : List Char) : List Char :=
  if s.isEmpty then [] else collapseWs ((pyStrip s).map pyLower)

/-! ### SHA-1 (`hashlib.sha1`), over byte lists -/

def u32 : Nat := 4294967296

/-- Rotate a 32-bit word left by `n`. -/
def rotl (n x : Nat) : Nat := ((x <<< n) ||| (x >>> (32 - n))) % u32

/-- UTF-8 encoding of a character sequence (`str.encode("utf-8")`). -/
def utf8Encode : List Char → List Nat
  | [] => []
  | c :: cs =>
    let n := c.toNat
    (if n < 128 then [n]
     else if n < 2048 then [192 + n / 64, 128 + n % 64]
     else if n < 65536 then [224 + n / 4096, 128 + (n / 64) % 64, 128 + n % 64]
     else [240 + n / 262144, 128 + (n / 4096) % 64, 128 + (n / 64) % 64, 128 + n % 64])
    ++ utf8Encode cs

/-- Big-endian 8-byte encoding of a natural number (the SHA-1 length field). -/
def beBytes8 (n : Nat) : List Nat :=
  [n / 2 ^ 56 % 256, n / 2 ^ 48 % 256, n / 2 ^ 40 % 256, n / 2 ^ 32 % 256,
   n / 2 ^ 24 % 256, n / 2 ^ 16 % 256, n / 2 ^ 8 % 256, n % 256]

/-- SHA-1 message padding: append `0x80`, zero bytes up to 56 mod 64, then
the bit length as 8 big-endian bytes. -/
def sha1Pad (msg : List Nat) : List Nat :=
  let len := msg.length
  msg ++ 128 :: List.replicate ((119 - len % 64) % 64) 0 ++ beBytes8 (8 * len)

/-- Group bytes into big-endian 32-bit words. -/
def bytesToWords : List Nat → List Nat
  | a :: b :: c :: d :: rest => (((a * 256 + b) * 256 + c) * 256 + d) :: bytesToWords rest
  | _ => []

/-- Extend the 16 block words to 80 words. -/
def extendLoop : Nat → List Nat → List Nat
  | 0, ws => ws
  | n + 1, ws =>
    let len := ws.length
    let w := rotl 1 ((ws.getD (len - 3) 0) ^^^ (ws.getD (len - 8) 0) ^^^
      (ws.getD (len - 14) 0) ^^^ (ws.getD (len - 16) 0))
    extendLoop n (ws ++ [w])

/-- The 80 SHA-1 rounds over the schedule words. -/
def sha1Rounds (i : Nat) (ws : List Nat) (st : Nat × Nat × Nat × Nat × Nat) :
    Nat × Nat × Nat × Nat × Nat :=
  match ws, st with
  | [], st => st
  | w :: ws, (a, b, c, d, e) =>
    let f :=
      if i < 20 then (b &&& c) ||| ((4294967295 ^^^ b) &&& d)
      else if i < 40 then b ^^^ c ^^^ d
      else if i < 60 then (b &&& c) ||| (b &&& d) ||| (c &&& d)
      else b ^^^ c ^^^ d
    let k :=
      if i < 20 then 1518500249
      else if i < 40 then 1859775393
      else if i < 60 then 2400959708
      else 3395469782
    let temp := (rotl 5 a + f + e + k + w) % u32
    sha1Rounds (i + 1) ws (temp, a, rotl 30 b, c, d)

/-- Compress one 64-byte block into the running state. -/
def processBlock (h : Nat × Nat × Nat × Nat × Nat) (block : List Nat) :
    Nat × Nat × Nat × Nat × Nat :=
  let ws := extendLoop 64 (bytesToWords block)
  let (h0, h1, h2, h3, h4) := h
  let (a, b, c, d, e) := sha1Rounds 0 ws h
  ((h0 + a) % u32, (h1 + b) % u32, (h2 + c) % u32, (h3 + d) % u32, (h4 + e) % u32)

/-- Fold the compression function over successive 64-byte blocks.  The
fuel argument only bounds the recursion depth (each step consumes at least
one byte), keeping the recursion structural. -/
def processBlocksFuel (fuel : Nat) (h : Nat × Nat × Nat × Nat × Nat) :
    List Nat → Nat × Nat × Nat × Nat × Nat
  | [] => h
  | b :: rest =>
    match fuel with
    | 0 => h
    | fuel + 1 => processBlocksFuel fuel (processBlock h ((b :: rest).take 64)) ((b :: rest).drop 64)

/-- Fold the compression function over all 64-byte blocks. -/
def processBlocks (h : Nat × Nat × Nat × Nat × Nat) (msg : List Nat) :
    Nat × Nat × Nat × Nat × Nat :=
  processBlocksFuel msg.length h msg

def hexChar (n : Nat) : Char :=
  if n < 10 then Char.ofNat (48 + n) else Char.ofNat (87 + n)

/-- Render one 32-bit word as 8 lowercase hex characters. -/
def toHex8 (w : Nat) : List Char :=
  [hexChar (w / 16 ^ 7 % 16), hexChar (w / 16 ^ 6 % 16), hexChar (w / 16 ^ 5 % 16),
   hexChar (w / 16 ^ 4 % 16), hexChar (w / 16 ^ 3 % 16), hexChar (w / 16 ^ 2 % 16),
   hexChar (w / 16 % 16), hexChar (w % 16)]

/-- `hashlib.sha1(·).hexdigest()` on a byte list. -/
def sha1Hex (msg : List Nat) : List Char :=
  let st := processBlocks (1732584193, 4023233417, 2562383102, 271733878, 3285377520)
    (sha1Pad msg)
  toHex8 st.1 ++ toHex8 st.2.1 ++ toHex8 st.2.2.1 ++ toHex8 st.2.2.2.1 ++ toHex8 st.2.2.2.2

/-- `generate_stable_id` from `src/utils/hashing.py`.  The namespace is the
Python `Optional[str]` argument; Python's truthiness test `if namespace:`
treats an empty namespace like `None`. -/
def generate_stable_id (value : List Char) (ns : Option (List Char) := none)
    (normalize : Bool := true) : List Char :=
  let normalized := if normalize then normalize_string value else value
  let combined :=
    match ns with
    | some n => if n.isEmpty then normalized else n ++ ':' :: normalized
    | none => normalized
  sha1Hex (utf8Encode combined)

/-! ### `src/pipeline/extract.py`: route / dosage-form classification -/

/-- Ordered route keyword table (`ROUTE_KEYWORDS`); Python dicts preserve
insertion order, so a list of pairs models the iteration order exactly. -/
def ROUTE_KEYWORDS : List (String × List String) := [
  ("oral", ["oral", "po", "by mouth", "per os"]),
  ("intravenous", ["intravenous", "iv", "i.v.", "intra-venous"]),
  ("subcutaneous", ["subcutaneous", "sc", "s.c.", "sub-q", "subq"]),
  ("intramuscular", ["intramuscular", "im", "i.m."]),
  ("topical", ["topical", "topically"]),
  ("inhalation", ["inhalation", "inhaled", "inhaler", "nebulized"]),
  ("intranasal", ["intranasal", "nasal", "intra-nasal"]),
  ("ophthalmic", ["ophthalmic", "eye", "ocular", "ophthalmically"]),
  ("rectal", ["rectal", "rectally"]),
  ("transdermal", ["transdermal", "patch", "dermal"]),
  ("intraperitoneal", ["intraperitoneal", "ip", "i.p."]),
  ("intraarterial", ["intraarterial", "ia", "i.a."])]

/-- Ordered dosage-form keyword table (`DOSAGE_FORM_KEYWORDS`). -/
def DOSAGE_FORM_KEYWORDS : List (String × List String) := [
  ("tablet", ["tablet", "tab", "tablets"]),
  ("capsule", ["capsule", "cap", "capsules"]),
  ("solution", ["solution", "sol", "solutions"]),
  ("injection", ["injection", "injectable", "injections"]),
  ("suspension", ["suspension", "susp", "suspensions"]),
  ("patch", ["patch", "patches", "transdermal patch"]),
  ("cream", ["cream", "creams"]),
  ("gel", ["gel", "gels"]),
  ("spray", ["spray", "sprays"]),
  ("inhaler", ["inhaler", "inhalers", "puffer"]),
  ("drops", ["drops", "eye drops", "ear drops"]),
  ("powder", ["powder", "powders"]),
  ("lozenge", ["lozenge", "lozenges"]),
  ("suppository", ["suppository", "suppositories"])]

/-- Regex `\w` word character (ASCII fragment). -/
def isWordChar (c : Char) : Bool := c.isAlphanum || c = '_'

/-- `\b` before the (word-initial) keyword: previous character absent or
not a word character. -/
def boundaryBefore (p : Option Char) : Bool :=
  match p with
  | none => true
  | some c => !isWordChar c

/-- `\b` after the (word-final) keyword: next character absent or not a
word character. -/
def boundaryAfter (rest : List Char) : Bool :=
  match rest with
  | [] => true
  | c :: _ => !isWordChar c

/-- `re.search(r"\b<k>\b", text)` for a keyword `k` that begins and ends
with word characters: an occurrence of `k` flanked by word boundaries.
`p` carries the character immediately before the current position. -/
def searchPlainKw (k : List Char) (p : Option Char) (s : List Char) : Bool :=
  (boundaryBefore p && k.isPrefixOf s && boundaryAfter (s.drop k.length)) ||
  match s with
  | [] => false
  | c :: cs => searchPlainKw k (some c) cs

/-- `re.search(r"\b<k>\.?\b", text)` for a period-stripped abbreviation
`k` (letters only): an occurrence of `k` after a word boundary, followed
either by a word boundary, or by a literal `.` that is itself followed by
a word character (the `\b` after the consumed non-word `.`). -/
def searchPeriodKw (k : List Char) (p : Option Char) (s : List Char) : Bool :=
  (boundaryBefore p && k.isPrefixOf s &&
    (boundaryAfter (s.drop k.length) ||
      (match s.drop k.length with
       | '.' :: c :: _ => isWordChar c
       | _ => false))) ||
  match s with
  | [] => false
  | c :: cs => searchPeriodKw k (some c) cs

/-- Python `str.split()` with no arguments: split on whitespace runs,
dropping empty tokens. -/
def pySplitAux (acc : List Char) : List Char → List (List Char)
  | [] => if acc.isEmpty then [] else [acc.reverse]
  | c :: cs =>
    if isPySpace c then
      if acc.isEmpty then pySplitAux [] cs else acc.reverse :: pySplitAux [] cs
    else pySplitAux (c :: acc) cs

def pySplit (s : List Char) : List (List Char) := pySplitAux [] s

/-- One keyword test of `normalize_route`: keywords containing a period
use the period-optional regex, then fall back to exact equality with the
whole text or membership among its whitespace-split tokens; plain keywords
use the word-boundary regex. -/
def routeKwMatches (keyword : List Char) (textLower : List Char) : Bool :=
  if keyword.contains '.' then
    searchPeriodKw (keyword.filter (fun c => c ≠ '.')) none textLower ||
    keyword == textLower || (pySplit textLower).contains keyword
  else
    searchPlainKw keyword none textLower

/-- One keyword test of `normalize_dosage_form`: always the plain
word-boundary regex. -/
def dosageKwMatches (keyword : List Char) (textLower : List Char) : Bool :=
  searchPlainKw keyword none textLower

/-- Scan an ordered keyword table, returning the first category (in table
order) one of whose keywords (in list order) matches. -/
def scanTable (kwMatch : List Char → List Char → Bool)
    (textLower : List Char) : List (String × List String) → Option String
  | [] => none
  | (cat, kws) :: rest =>
    if kws.any (fun kw => kwMatch kw.data textLower) then some cat
    else scanTable kwMatch textLower rest

/-- `normalize_route` from `src/pipeline/extract.py`. -/
def normalize_route (route : List Char) : Option String :=
  if route.isEmpty then none
  else scanTable routeKwMatches (route.map pyLower) ROUTE_KEYWORDS

/-- `normalize_dosage_form` from `src/pipeline/extract.py`. -/
def normalize_dosage_form (text : List Char) : Option String :=
  if text.isEmpty then none
  else scanTable dosageKwMatches (text.map pyLower) DOSAGE_FORM_KEYWORDS

/-- `extract_route_and_dosage` from `src/pipeline/extract.py`: empty
intervention name short-circuits to `(None, None)`; otherwise the name and
(when non-empty) the type are concatenated with a space and classified. -/
def extract_route_and_dosage (interventionName : List Char)
    (interventionType : List Char := []) : Option String × Option String :=
  if interventionName.isEmpty then (none, none)
  else
    let text :=
      if interventionType.isEmpty then interventionName
      else interventionName ++ ' ' :: interventionType
    (normalize_route text, normalize_dosage_form text)

/-! ### `src/pipeline/transform.py`: the entity resolver -/

structure StudyRow where
  nct_id : List Char
  brief_title : List Char := []
  phase : List Char := []
  overall_status : List Char := []
  start_date : List Char := []
  completion_date : List Char := []
  study_type : List Char := []
  deriving DecidableEq, Repr

structure InterventionRow where
  nct_id : List Char
  intervention_name : List Char := []
  intervention_type : List Char := []
  deriving DecidableEq, Repr

structure SponsorRow where
  nct_id : List Char
  name : List Char := []
  agency_class : List Char := []
  lead_or_collaborator : List Char := []
  deriving DecidableEq, Repr

structure TrialRec where
  nct_id : List Char
  title : List Char
  phase : List Char
  status : List Char
  start_date : List Char
  completion_date : List Char
  study_type : List Char
  route : Option String
  dosage_form : Option String
  deriving DecidableEq, Repr

structure OrgRec where
  org_id : List Char
  name_norm : List Char
  name_raw : List Char
  agency_class : List Char
  deriving DecidableEq, Repr

structure OrgEdge where
  nct_id : List Char
  org_id : List Char
  rel_type : List Char
  deriving DecidableEq, Repr

structure DrugRec where
  drug_id : List Char
  name_norm : List Char
  name_raw : List Char
  deriving DecidableEq, Repr

structure DrugEdge where
  nct_id : List Char
  drug_id : List Char
  deriving DecidableEq, Repr

/-- The per-intervention loop body of `aggregate_trial_route_dosage`:
collect, in row order, the non-null routes and the non-null dosage forms. -/
def collectRouteDosage : List InterventionRow → List String × List String
  | [] => ([], [])
  | r :: rest =>
    let rd := extract_route_and_dosage r.intervention_name r.intervention_type
    let rds := collectRouteDosage rest
    (match rd.1 with | some x => x :: rds.1 | none => rds.1,
     match rd.2 with | some y => y :: rds.2 | none => rds.2)

/-- `interventions_df[interventions_df["nct_id"] == nct_id]`: the
interventions of one trial, in their original row order. -/
def trialInterventionsOf (interventions : List InterventionRow)
    (nct_id : List Char) : List InterventionRow :=
  interventions.filter (fun r => r.nct_id == nct_id)

/-- `aggregate_trial_route_dosage` from `src/pipeline/extract.py`: filter
the interventions of the trial (preserving row order), classify each, and
return the first route and first dosage form found. -/
def aggregate_trial_route_dosage (interventions : List InterventionRow)
    (nct_id : List Char) : Option String × Option String :=
  let rds := collectRouteDosage (trialInterventionsOf interventions nct_id)
  (rds.1.head?, rds.2.head?)

/-- `Transformer.transform_trials`: one output row per study row, with the
aggregated route / dosage form. -/
def transform_trials (studies : List StudyRow)
    (interventions : List InterventionRow) : List TrialRec :=
  studies.map (fun row =>
    let rd := aggregate_trial_route_dosage interventions row.nct_id
    { nct_id := row.nct_id, title := row.brief_title, phase := row.phase,
      status := row.overall_status, start_date := row.start_date,
      completion_date := row.completion_date, study_type := row.study_type,
      route := rd.1, dosage_form := rd.2 })

def pyUpperStr (s : List Char) : List Char := s.map pyUpper

/-- `generate_stable_id(org_name_norm, namespace="org")`: the dedup key of
a sponsor row. -/
def orgIdOf (row : SponsorRow) : List Char :=
  generate_stable_id (normalize_string row.name) (some "org".data)

/-- The edge dict appended for every kept sponsor row: `SPONSORED_BY` when
the uppercased role equals `"LEAD"`, else `COLLABORATES_WITH`. -/
def orgEdgeOf (row : SponsorRow) : OrgEdge :=
  { nct_id := row.nct_id, org_id := orgIdOf row,
    rel_type :=
      if pyUpperStr row.lead_or_collaborator = "LEAD".data then
        "SPONSORED_BY".data
      else "COLLABORATES_WITH".data }

/-- The organization dict stored on the first occurrence of an id. -/
def orgRecOf (row : SponsorRow) : OrgRec :=
  { org_id := orgIdOf row, name_norm := normalize_string row.name,
    name_raw := row.name, agency_class := row.agency_class }

/-- The row loop of `Transformer.transform_organizations`. `seen` is the
key set of the `org_map` dict; organization records are emitted in first-
occurrence order (Python dicts preserve insertion order), edges in row
order. -/
def transformOrgsAux (seen : List (List Char)) :
    List SponsorRow → List OrgRec × List OrgEdge
  | [] => ([], [])
  | row :: rest =>
    if row.name.isEmpty then transformOrgsAux seen rest
    else if orgIdOf row ∈ seen then
      let tail := transformOrgsAux seen rest
      (tail.1, orgEdgeOf row :: tail.2)
    else
      let tail := transformOrgsAux (orgIdOf row :: seen) rest
      (orgRecOf row :: tail.1, orgEdgeOf row :: tail.2)

/-- `Transformer.transform_organizations` from `src/pipeline/transform.py`. -/
def transform_organizations (sponsors : List SponsorRow) :
    List OrgRec × List OrgEdge :=
  transformOrgsAux [] sponsors

/-- The intervention types that become `Drug` entities. -/
def drugTypes : List (List Char) :=
  ["Drug".data, "Biological".data, "Biological/Vaccine".data]

/-- `generate_stable_id(drug_name_norm, namespace="drug")`. -/
def drugIdOf (row : InterventionRow) : List Char :=
  generate_stable_id (normalize_string row.intervention_name) (some "drug".data)

def drugEdgeOf (row : InterventionRow) : DrugEdge :=
  { nct_id := row.nct_id, drug_id := drugIdOf row }

def drugRecOf (row : InterventionRow) : DrugRec :=
  { drug_id := drugIdOf row, name_norm := normalize_string row.intervention_name,
    name_raw := row.intervention_name }

/-- The row loop of `Transformer.transform_drugs`. -/
def transformDrugsAux (seen : List (List Char)) :
    List InterventionRow → List DrugRec × List DrugEdge
  | [] => ([], [])
  | row :: rest =>
    if row.intervention_name.isEmpty then transformDrugsAux seen rest
    else if row.intervention_type ∈ drugTypes then
      if drugIdOf row ∈ seen then
        let tail := transformDrugsAux seen rest
        (tail.1, drugEdgeOf row :: tail.2)
      else
        let tail := transformDrugsAux (drugIdOf row :: seen) rest
        (drugRecOf row :: tail.1, drugEdgeOf row :: tail.2)
    else transformDrugsAux seen rest

/-- `Transformer.transform_drugs` from `src/pipeline/transform.py`. -/
def transform_drugs (interventions : List InterventionRow) :
    List DrugRec × List DrugEdge :=
  transformDrugsAux [] interventions

/-! ### `src/pipeline/cypher.py` + `src/pipeline/load.py`: the batch upsert

A graph node collection for one label is an association list from key to
attribute record, in creation order.  `UNWIND $rows AS row MERGE (n
{key: row.key}) SET n.a = row.a, …` processes the batch rows sequentially;
each row matches the node with its key and overwrites all non-key
attributes, or creates the node if no match exists. -/

/-- One `MERGE … SET`-all step of the batch Cypher statements. -/
def upsertNode {α : Type} (g : List (List Char × α)) (key : List Char)
    (attrs : α) : List (List Char × α) :=
  if g.any (fun p => p.1 == key) then
    g.map (fun p => if p.1 == key then (key, attrs) else p)
  else g ++ [(key, attrs)]

/-- One `UNWIND`-batch statement (`LOAD_TRIALS_BATCH` and friends):
sequential merge-then-set-all over the batch rows. -/
def applyNodeBatch {α : Type} (g : List (List Char × α))
    (batch : List (List Char × α)) : List (List Char × α) :=
  batch.foldl (fun acc row => upsertNode acc row.1 row.2) g

/-- `Neo4jLoader.load_trials` applied to one batch: graph effect of
`LOAD_TRIALS_BATCH` with the trial's `nct_id` as merge key. -/
def load_trials_batch (g : List (List Char × TrialRec)) (trials : List TrialRec) :
    List (List Char × TrialRec) :=
  applyNodeBatch g (trials.map (fun t => (t.nct_id, t)))

/-! ### `src/pipeline/ingest.py`: table loading and the schema check -/

/-- A raw tabular row: column name to value, `none` standing for a missing
value (pandas `NaN`). -/
abbrev RowMap : Type := List (List Char × Option (List Char))

/-- A pipe-delimited table as loaded by pandas: a schema plus rows. -/
structure RawTable where
  cols : List (List Char)
  rows : List RowMap
  deriving DecidableEq

/-- `AACTIngester.load_table`: fail before any row processing when a
required column is absent from the schema, else hand the table through. -/
def load_table (t : RawTable) (requiredColumns : List (List Char)) :
    Except (List (List Char)) RawTable :=
  let missing := requiredColumns.filter (fun c => ¬ c ∈ t.cols)
  if missing.isEmpty then .ok t else .error missing

/-- The per-table required column lists from `AACTIngester.ingest`. -/
def studiesRequiredColumns : List (List Char) :=
  ["nct_id".data, "brief_title".data, "phase".data, "overall_status".data]

def sponsorsRequiredColumns : List (List Char) :=
  ["nct_id".data, "name".data, "agency_class".data, "lead_or_collaborator".data]

def interventionsRequiredColumns : List (List Char) :=
  ["nct_id".data, "intervention_name".data, "intervention_type".data]

/-- `row.get(col, "")` on a pandas row: the stored value if the column
exists (possibly `NaN` = `none`), else the default empty string. -/
def rowGet (row : RowMap) (col : List Char) : Option (List Char) :=
  match row.find? (fun p => p.1 == col) with
  | some p => p.2
  | none => some []

/-- `row["nct_id"]`-style access used by the transformer: fails only if
the column itself is absent from the row. -/
def rowGetHard (row : RowMap) (col : List Char) :
    Except (List Char) (Option (List Char)) :=
  match row.find? (fun p => p.1 == col) with
  | some p => .ok p.2
  | none => .error col

/-- Build a `SponsorRow` from a raw row the way
`Transformer.transform_organizations` reads it, before the skip test:
`nct_id` by direct indexing (`KeyError` when the field is absent), `name`
and `agency_class` via `row.get(·, "")` — a `NaN` value in those two
behaves like the empty string downstream (`name` is skipped by the
falsy-or-`isna` test, `agency_class` is only stored) — but
`row.get("lead_or_collaborator", "").upper()` is called on the raw value
immediately, so a present-but-`NaN` value there raises `AttributeError`
(floats have no `.upper`); an absent column yields the default `""` and is
safe.  The uppercasing itself is applied in `transformOrgsAux`. -/
def mkSponsorRow (row : RowMap) : Except (List Char) SponsorRow :=
  match rowGetHard row "nct_id".data with
  | .error c => .error c
  | .ok v =>
    match rowGet row "lead_or_collaborator".data with
    | none => .error "AttributeError".data
    | some rel =>
      .ok { nct_id := v.getD [],
            name := (rowGet row "name".data).getD [],
            agency_class := (rowGet row "agency_class".data).getD [],
            lead_or_collaborator := rel }

/-- `Transformer.transform_organizations` over raw rows, surfacing the two
possible row-processing failures: a row without the `nct_id` field
(`KeyError`), and a row whose `lead_or_collaborator` value is `NaN`
(`AttributeError` from the eager `.upper()` call). -/
def transform_organizations_checked (rows : List RowMap) :
    Except (List Char) (List OrgRec × List OrgEdge) := do
  let sponsorRows ← rows.mapM mkSponsorRow
  pure (transform_organizations sponsorRows)

/-! ### Specification-side predicates used by the theorems -/

/-- Characters that may legally appear in a lowercase hexadecimal digest:
`0`–`9` and `a`–`f`. -/
def isLowerHexDigit (c : Char) : Bool :=
  (48 ≤ c.toNat && c.toNat ≤ 57) || (97 ≤ c.toNat && c.toNat ≤ 102)

/-- The output alphabet of `normalize_string`: the only whitespace is a
plain space. -/
def onlyPlainSpace (s : List Char) : Bool :=
  s.all (fun c => !isPySpace c || c = ' ')

/-- No character is changed by lowercasing. -/
def noUpperChar (s : List Char) : Bool :=
  s.all (fun c => pyLower c == c)

/-- No two adjacent spaces. -/
def noTwoSpaces : List Char → Bool
  | c1 :: c2 :: cs => !(c1 = ' ' && c2 = ' ') && noTwoSpaces (c2 :: cs)
  | _ => true

/-- Neither end of the string is whitespace. -/
def noEdgeSpace (s : List Char) : Bool :=
  (match s.head? with | some c => !isPySpace c | none => true) &&
  (match s.getLast? with | some c => !isPySpace c | none => true)

/-- A string is canonical when normalization cannot change it. -/
def canonicalStr (s : List Char) : Bool :=
  onlyPlainSpace s && noUpperChar s && noTwoSpaces s && noEdgeSpace s

/-- The category at index `i` of the keyword table matches the (already
lowercased) text, and no earlier category does — the observable content of
the first-match scan. -/
def firstMatchAt (m : List Char → List Char → Bool)
    (tbl : List (String × List String)) (t : List Char) (i : Nat)
    (cat : String) : Prop :=
  ∃ entry : String × List String, tbl[i]? = some entry ∧ entry.1 = cat ∧
    (entry.2.any fun kw => m kw.data t) = true ∧
    ∀ j (entry2 : String × List String), j < i → tbl[j]? = some entry2 →
      (entry2.2.any fun kw => m kw.data t) = false

/-- No category of the keyword table matches the text. -/
def noCategoryMatches (m : List Char → List Char → Bool)
    (tbl : List (String × List String)) (t : List Char) : Prop :=
  ∀ (i : Nat) (entry : String × List String), tbl[i]? = some entry →
    (entry.2.any fun kw => m kw.data t) = false

/-- The route classifier as the specification describes it: apply the full
Normalizer (`normalize_string`: trim, collapse whitespace runs, lowercase)
to the input before the keyword scan.  To be compared with the source's
`normalize_route`, which only lowercases. -/
def normalize_route_specNormalized (route : List Char) : Option String :=
  if route.isEmpty then none
  else scanTable routeKwMatches (normalize_string route) ROUTE_KEYWORDS

/-- A node with the given key exists in the graph collection. -/
def HasKey {α : Type} (g : List (List Char × α)) (k : List Char) : Prop :=
  ∃ p ∈ g, p.1 = k

/-- The attribute record of the last batch row carrying the given key, if
any — after a merge-then-set-all batch, this is the key's attribute value. -/
def lastAttr {α : Type} : List (List Char × α) → List Char → Option α
  | [], _ => none
  | (k, a) :: b, key =>
    match lastAttr b key with
    | some v => some v
    | none => if key = k then some a else none

instance {ε α : Type} [DecidableEq ε] [DecidableEq α] : DecidableEq (Except ε α) := fun
  | .error a, .error b =>
    if h : a = b then .isTrue (by rw [h]) else .isFalse (fun hc => by cases hc; exact h rfl)
  | .error _, .ok _ => .isFalse (fun hc => by cases hc)
  | .ok _, .error _ => .isFalse (fun hc => by cases hc)
  | .ok a, .ok b =>
    if h : a = b then .isTrue (by rw [h]) else .isFalse (fun hc => by cases hc; exact h rfl)

/-! ## Character-level lemmas -/

theorem toNat_ofNat_lt {n : Nat} (h : n < 55296) : (Char.ofNat n).toNat = n := by
  have hv : n.isValidChar := Or.inl h
  simp [Char.ofNat, Char.ofNatAux, hv, Char.toNat, UInt32.toNat, BitVec.toNat_ofNatLt]

theorem char_toNat_lt (c : Char) : c.toNat < 1114112 := by
  rcases c.valid with h | ⟨_, h⟩
  · exact Nat.lt_trans h (by decide)
  · exact h

theorem pyLower_eq_self {c : Char} (h : ¬(65 ≤ c.toNat ∧ c.toNat ≤ 90)) :
    pyLower c = c := by
  unfold pyLower; rw [if_neg h]

theorem pyLower_not_upper (c : Char) :
    ¬(65 ≤ (pyLower c).toNat ∧ (pyLower c).toNat ≤ 90) := by
  unfold pyLower
  split
  · next h => rw [toNat_ofNat_lt (by omega)]; omega
  · next h => exact h

theorem pyLower_idem (c : Char) : pyLower (pyLower c) = pyLower c :=
  pyLower_eq_self (pyLower_not_upper c)

theorem isPySpace_pyLower (c : Char) : isPySpace (pyLower c) = isPySpace c := by
  unfold pyLower
  split
  · next h =>
    have h1 : isPySpace (Char.ofNat (c.toNat + 32)) = false := by
      simp only [isPySpace, toNat_ofNat_lt (show c.toNat + 32 < 55296 by omega)]
      simp only [Bool.or_eq_false_iff, decide_eq_false_iff_not]
      omega
    have h2 : isPySpace c = false := by
      simp only [isPySpace, Bool.or_eq_false_iff, decide_eq_false_iff_not]
      omega
    rw [h1, h2]
  · rfl

theorem ne_space_of_not_space {c : Char} (h : isPySpace c = false) : c ≠ ' ' := by
  intro e; rw [e] at h; exact absurd h (by decide)

/-! ## `normalize_string` structure: the normal form is canonical (C10) -/

theorem noTwoSpaces_cons_of {c : Char} {X : List Char}
    (hX : noTwoSpaces X = true) (h : c = ' ' → X.head? ≠ some ' ') :
    noTwoSpaces (c :: X) = true := by
  cases X with
  | nil => rfl
  | cons x xs =>
    show (!(c = ' ' && x = ' ') && noTwoSpaces (x :: xs)) = true
    rw [hX, Bool.and_true]
    by_cases hc : c = ' '
    · have hx : ¬x = ' ' := fun e => h hc (by rw [e]; rfl)
      simp [hc, hx]
    · simp [hc]

theorem head_collapseWsAux_true (u : List Char) :
    (collapseWsAux true u).head? ≠ some ' ' := by
  induction u with
  | nil => simp [collapseWsAux]
  | cons c cs ih =>
    by_cases hc : isPySpace c = true
    · simpa [collapseWsAux, hc] using ih
    · have hc' : isPySpace c = false := by simpa using hc
      simp only [collapseWsAux, hc', Bool.false_eq_true, if_false, List.head?_cons]
      intro e
      exact ne_space_of_not_space hc' (by injection e)

theorem onlyPlainSpace_collapseWsAux (prev : Bool) (u : List Char) :
    onlyPlainSpace (collapseWsAux prev u) = true := by
  induction u generalizing prev with
  | nil => rfl
  | cons c cs ih =>
    by_cases hc : isPySpace c = true
    · cases prev with
      | true => simpa [collapseWsAux, hc] using ih true
      | false =>
        simp only [collapseWsAux, hc, if_true, Bool.false_eq_true, if_false]
        simp only [onlyPlainSpace, List.all_cons, Bool.and_eq_true]
        exact ⟨by decide, ih true⟩
    · have hc' : isPySpace c = false := by simpa using hc
      simp only [collapseWsAux, hc', Bool.false_eq_true, if_false]
      simp only [onlyPlainSpace, List.all_cons, Bool.and_eq_true]
      exact ⟨by simp [hc'], ih false⟩

theorem noUpperChar_collapseWsAux (u : List Char) :
    ∀ prev : Bool, noUpperChar u = true →
      noUpperChar (collapseWsAux prev u) = true := by
  induction u with
  | nil => intro prev _; rfl
  | cons c cs ih =>
    intro prev hu
    simp only [noUpperChar, List.all_cons, Bool.and_eq_true] at hu
    have hcs : noUpperChar cs = true := hu.2
    by_cases hc : isPySpace c = true
    · cases prev with
      | true => simpa [collapseWsAux, hc] using ih true hcs
      | false =>
        simp only [collapseWsAux, hc, if_true, Bool.false_eq_true, if_false]
        simp only [noUpperChar, List.all_cons, Bool.and_eq_true]
        exact ⟨by decide, ih true hcs⟩
    · have hc' : isPySpace c = false := by simpa using hc
      simp only [collapseWsAux, hc', Bool.false_eq_true, if_false]
      simp only [noUpperChar, List.all_cons, Bool.and_eq_true]
      exact ⟨hu.1, ih false hcs⟩

theorem noUpperChar_map_pyLower (w : List Char) :
    noUpperChar (w.map pyLower) = true := by
  induction w with
  | nil => rfl
  | cons c cs ih =>
    simp only [List.map_cons, noUpperChar, List.all_cons, Bool.and_eq_true]
    exact ⟨by rw [beq_iff_eq]; exact pyLower_idem c,
           by simpa [noUpperChar] using ih⟩

theorem noTwoSpaces_collapseWsAux (prev : Bool) (u : List Char) :
    noTwoSpaces (collapseWsAux prev u) = true := by
  induction u generalizing prev with
  | nil => rfl
  | cons c cs ih =>
    by_cases hc : isPySpace c = true
    · cases prev with
      | true => simpa [collapseWsAux, hc] using ih true
      | false =>
        simp only [collapseWsAux, hc, if_true, Bool.false_eq_true, if_false]
        exact noTwoSpaces_cons_of (ih true) (fun _ => head_collapseWsAux_true cs)
    · have hc' : isPySpace c = false := by simpa using hc
      simp only [collapseWsAux, hc', Bool.false_eq_true, if_false]
      exact noTwoSpaces_cons_of (ih false)
        (fun e => absurd e (ne_space_of_not_space hc'))

theorem collapseWsAux_true_nil_last {u : List Char}
    (h : collapseWsAux true u = []) :
    ∀ c, u.getLast? = some c → isPySpace c = true := by
  induction u with
  | nil => intro c hc; cases hc
  | cons a us ih =>
    by_cases ha : isPySpace a = true
    · simp only [collapseWsAux, ha, if_true] at h
      intro c hc
      cases us with
      | nil =>
        simp only [List.getLast?_singleton, Option.some_inj] at hc
        rw [← hc]; exact ha
      | cons b bs =>
        rw [List.getLast?_cons_cons] at hc
        exact ih h c hc
    · have ha' : isPySpace a = false := by simpa using ha
      simp [collapseWsAux, ha'] at h

theorem getLast_collapseWsAux (u : List Char) :
    ∀ prev : Bool, (∀ c, u.getLast? = some c → isPySpace c = false) →
      ∀ c, (collapseWsAux prev u).getLast? = some c → isPySpace c = false := by
  induction u with
  | nil => intro prev _ c hc; cases hc
  | cons a us ih =>
    intro prev hu
    by_cases ha : isPySpace a = true
    · have hus : us ≠ [] := by
        intro e; subst e
        have := hu a (by simp)
        rw [ha] at this; cases this
      have hu' : ∀ c, us.getLast? = some c → isPySpace c = false := by
        intro c hc
        apply hu
        cases us with
        | nil => exact absurd rfl hus
        | cons b bs => rw [List.getLast?_cons_cons]; exact hc
      cases prev with
      | true =>
        simp only [collapseWsAux, ha, if_true]
        exact ih true hu'
      | false =>
        simp only [collapseWsAux, ha, if_true, Bool.false_eq_true, if_false]
        intro c hc
        cases hX : collapseWsAux true us with
        | nil =>
          exfalso
          cases hus' : us with
          | nil => exact hus hus'
          | cons b bs =>
            have hsm : ∃ d, us.getLast? = some d := by
              rw [hus']
              cases hgl : (b :: bs).getLast? with
              | none => exact absurd (List.getLast?_eq_none_iff.mp hgl) (by simp)
              | some d => exact ⟨d, rfl⟩
            obtain ⟨d, hd⟩ := hsm
            have h1 := collapseWsAux_true_nil_last hX d hd
            have h2 := hu' d hd
            rw [h1] at h2; cases h2
        | cons x xs =>
          rw [hX, List.getLast?_cons_cons] at hc
          have := ih true hu'
          rw [hX] at this
          exact this c hc
    · have ha' : isPySpace a = false := by simpa using ha
      simp only [collapseWsAux, ha', Bool.false_eq_true, if_false]
      intro c hc
      cases us with
      | nil =>
        simp only [collapseWsAux, List.getLast?_singleton, Option.some_inj] at hc
        rw [← hc]; exact ha'
      | cons b bs =>
        have hu' : ∀ c, (b :: bs).getLast? = some c → isPySpace c = false := by
          intro c hc; exact hu c (by rw [List.getLast?_cons_cons]; exact hc)
        cases hX : collapseWsAux false (b :: bs) with
        | nil =>
          rw [hX, List.getLast?_singleton, Option.some_inj] at hc
          rw [← hc]; exact ha'
        | cons x xs =>
          rw [hX, List.getLast?_cons_cons] at hc
          have := ih false hu'
          rw [hX] at this
          exact this c hc

theorem head_collapseWsAux_false (u : List Char)
    (hu : ∀ c, u.head? = some c → isPySpace c = false) :
    ∀ c, (collapseWsAux false u).head? = some c → isPySpace c = false := by
  cases u with
  | nil => intro c hc; cases hc
  | cons a us =>
    have ha : isPySpace a = false := hu a rfl
    simp only [collapseWsAux, ha, Bool.false_eq_true, if_false, List.head?_cons]
    intro c hc
    rw [Option.some_inj] at hc
    rw [← hc]; exact ha

theorem head_dropWhile (p : Char → Bool) (l : List Char) :
    ∀ c, (l.dropWhile p).head? = some c → p c = false := by
  induction l with
  | nil => intro c hc; cases hc
  | cons a l ih =>
    by_cases hp : p a = true
    · simpa [List.dropWhile_cons, hp] using ih
    · have hp' : p a = false := by simpa using hp
      simp only [List.dropWhile_cons, hp', Bool.false_eq_true, if_false,
        List.head?_cons]
      intro c hc
      rw [Option.some_inj] at hc
      rw [← hc]; exact hp'

theorem getLast_dropWhile (p : Char → Bool) (l : List Char)
    (h : l.dropWhile p ≠ []) : (l.dropWhile p).getLast? = l.getLast? := by
  induction l with
  | nil => exact absurd rfl h
  | cons a l ih =>
    by_cases hp : p a = true
    · rw [List.dropWhile_cons, if_pos hp] at h ⊢
      have hl : l ≠ [] := by
        intro e; subst e; exact h rfl
      rw [ih h]
      cases l with
      | nil => exact absurd rfl hl
      | cons b bs => rw [List.getLast?_cons_cons]
    · have hp' : p a = false := by simpa using hp
      rw [List.dropWhile_cons, hp']
      simp

theorem pyStrip_head (s : List Char) :
    ∀ c, (pyStrip s).head? = some c → isPySpace c = false := by
  intro c hc
  unfold pyStrip at hc
  rw [List.head?_reverse] at hc
  have hne : (s.dropWhile isPySpace).reverse.dropWhile isPySpace ≠ [] := by
    intro e; rw [e] at hc; cases hc
  rw [getLast_dropWhile _ _ hne, List.getLast?_reverse] at hc
  exact head_dropWhile _ _ c hc

theorem pyStrip_last (s : List Char) :
    ∀ c, (pyStrip s).getLast? = some c → isPySpace c = false := by
  intro c hc
  unfold pyStrip at hc
  rw [List.getLast?_reverse] at hc
  exact head_dropWhile _ _ c hc

theorem noEdgeSpace_of {X : List Char}
    (h1 : ∀ c, X.head? = some c → isPySpace c = false)
    (h2 : ∀ c, X.getLast? = some c → isPySpace c = false) :
    noEdgeSpace X = true := by
  unfold noEdgeSpace
  cases hh : X.head? with
  | none =>
    cases hl : X.getLast? with
    | none => rfl
    | some c => simp [h2 c hl]
  | some c =>
    cases hl : X.getLast? with
    | none => simp [h1 c hh]
    | some d => simp [h1 c hh, h2 d hl]

/-- Every output of `normalize_string` is canonical. -/
theorem canonicalStr_normalize_string (s : List Char) :
    canonicalStr (normalize_string s) = true := by
  unfold normalize_string
  by_cases hs : s.isEmpty
  · rw [if_pos hs]; decide
  · simp only [hs, Bool.false_eq_true, if_false]
    have hhead : ∀ c, ((pyStrip s).map pyLower).head? = some c →
        isPySpace c = false := by
      intro c hc
      rw [List.head?_map, Option.map_eq_some'] at hc
      obtain ⟨d, hd, hdc⟩ := hc
      rw [← hdc, isPySpace_pyLower]
      exact pyStrip_head s d hd
    have hlast : ∀ c, ((pyStrip s).map pyLower).getLast? = some c →
        isPySpace c = false := by
      intro c hc
      rw [List.getLast?_map, Option.map_eq_some'] at hc
      obtain ⟨d, hd, hdc⟩ := hc
      rw [← hdc, isPySpace_pyLower]
      exact pyStrip_last s d hd
    unfold canonicalStr collapseWs
    rw [onlyPlainSpace_collapseWsAux,
      noUpperChar_collapseWsAux _ _ (noUpperChar_map_pyLower _),
      noTwoSpaces_collapseWsAux,
      noEdgeSpace_of (head_collapseWsAux_false _ hhead)
        (getLast_collapseWsAux _ false hlast)]
    rfl

theorem dropWhile_eq_self_of (p : Char → Bool) (l : List Char)
    (h : ∀ c, l.head? = some c → p c = false) : l.dropWhile p = l := by
  cases l with
  | nil => rfl
  | cons a l => rw [List.dropWhile_cons, h a rfl]; simp

theorem pyStrip_eq_self {t : List Char} (h : noEdgeSpace t = true) :
    pyStrip t = t := by
  unfold noEdgeSpace at h
  rw [Bool.and_eq_true] at h
  unfold pyStrip
  have h1 : t.dropWhile isPySpace = t := by
    apply dropWhile_eq_self_of
    intro c hc
    rw [hc] at h
    simpa using h.1
  rw [h1]
  have h2 : t.reverse.dropWhile isPySpace = t.reverse := by
    apply dropWhile_eq_self_of
    intro c hc
    rw [List.head?_reverse] at hc
    rw [hc] at h
    simpa using h.2
  rw [h2, List.reverse_reverse]

theorem map_pyLower_eq_self {t : List Char} (h : noUpperChar t = true) :
    t.map pyLower = t := by
  induction t with
  | nil => rfl
  | cons c cs ih =>
    simp only [noUpperChar, List.all_cons, Bool.and_eq_true, beq_iff_eq] at h
    simp only [List.map_cons, h.1]
    rw [ih (by simpa [noUpperChar] using h.2)]

theorem collapseWsAux_eq_self (t : List Char) :
    ∀ prev : Bool, onlyPlainSpace t = true → noTwoSpaces t = true →
      (prev = true → t.head? ≠ some ' ') → collapseWsAux prev t = t := by
  induction t with
  | nil => intro prev _ _ _; rfl
  | cons c cs ih =>
    intro prev h1 h2 hp
    simp only [onlyPlainSpace, List.all_cons, Bool.and_eq_true] at h1
    by_cases hc : isPySpace c = true
    · have hcsp : c = ' ' := by
        rcases Bool.or_eq_true_iff.mp h1.1 with h | h
        · rw [hc] at h; cases h
        · exact of_decide_eq_true h
      subst hcsp
      cases prev with
      | true => exact absurd rfl (hp rfl)
      | false =>
        have h2' : noTwoSpaces cs = true := by
          cases cs with
          | nil => rfl
          | cons d ds =>
            rw [show noTwoSpaces (' ' :: d :: ds) =
              (!(' ' = ' ' && d = ' ') && noTwoSpaces (d :: ds)) from rfl,
              Bool.and_eq_true] at h2
            exact h2.2
        have hp' : true = true → cs.head? ≠ some ' ' := by
          intro _
          cases cs with
          | nil => simp
          | cons d ds =>
            rw [show noTwoSpaces (' ' :: d :: ds) =
              (!(' ' = ' ' && d = ' ') && noTwoSpaces (d :: ds)) from rfl,
              Bool.and_eq_true] at h2
            have h3 := h2.1
            simp only [List.head?_cons]
            intro e
            have hd : d = ' ' := by injection e
            rw [hd] at h3
            simp at h3
        simp only [collapseWsAux, hc, if_true, Bool.false_eq_true, if_false]
        exact congrArg (List.cons ' ') (ih true h1.2 h2' hp')
    · have hc' : isPySpace c = false := by simpa using hc
      have h2' : noTwoSpaces cs = true := by
        cases cs with
        | nil => rfl
        | cons d ds =>
          rw [show noTwoSpaces (c :: d :: ds) =
            (!(c = ' ' && d = ' ') && noTwoSpaces (d :: ds)) from rfl,
            Bool.and_eq_true] at h2
          exact h2.2
      simp only [collapseWsAux, hc', Bool.false_eq_true, if_false]
      exact congrArg (List.cons c) (ih false h1.2 h2' (fun e => Bool.noConfusion e))

/-- Normalization fixes canonical strings. -/
theorem normalize_string_of_canonical {t : List Char}
    (h : canonicalStr t = true) : normalize_string t = t := by
  unfold canonicalStr at h
  rw [Bool.and_eq_true, Bool.and_eq_true, Bool.and_eq_true] at h
  obtain ⟨⟨⟨hplain, hupper⟩, htwo⟩, hedge⟩ := h
  unfold normalize_string
  by_cases ht : t.isEmpty
  · simp [ht, List.isEmpty_iff.mp ht]
  · simp only [ht, Bool.false_eq_true, if_false]
    rw [pyStrip_eq_self hedge, map_pyLower_eq_self hupper]
    unfold collapseWs
    exact collapseWsAux_eq_self t false hplain htwo (fun e => Bool.noConfusion e)

/-- C10: `normalize_string` is idempotent — an already-normalized string
passes through normalization unchanged. -/
theorem normalize_string_idempotent (s : List Char) :
    normalize_string (normalize_string s) = normalize_string s :=
  normalize_string_of_canonical (canonicalStr_normalize_string s)

/-! ## `generate_stable_id` (C3, C7) -/

/-- C3: ids are a function of the normalized value — equal normalizations
give equal ids for every namespace.  Determinism is definitional in this
embedding: `generate_stable_id` is a pure function of its arguments. -/
theorem stable_id_respects_normalization (s1 s2 : List Char)
    (ns : Option (List Char)) (h : normalize_string s1 = normalize_string s2) :
    generate_stable_id s1 ns true = generate_stable_id s2 ns true := by
  simp only [generate_stable_id, if_true, h]

/-- Witness for C3 at `"  Test  "` / `"test"` with the `"org"` namespace. -/
theorem stable_id_respects_normalization_witness :
    normalize_string "  Test  ".data = normalize_string "test".data ∧
    generate_stable_id "  Test  ".data (some "org".data) true =
      generate_stable_id "test".data (some "org".data) true :=
  ⟨by decide, stable_id_respects_normalization _ _ _ (by decide)⟩

theorem hexChar_isLowerHexDigit {n : Nat} (h : n < 16) :
    isLowerHexDigit (hexChar n) = true := by
  unfold hexChar isLowerHexDigit
  by_cases h10 : n < 10
  · rw [if_pos h10, toNat_ofNat_lt (by omega)]
    simp only [Bool.or_eq_true, Bool.and_eq_true, decide_eq_true_eq]
    omega
  · rw [if_neg h10, toNat_ofNat_lt (by omega)]
    simp only [Bool.or_eq_true, Bool.and_eq_true, decide_eq_true_eq]
    omega

theorem toHex8_hex (w : Nat) : (toHex8 w).all isLowerHexDigit = true := by
  have h : ∀ x : Nat, isLowerHexDigit (hexChar (x % 16)) = true :=
    fun x => hexChar_isLowerHexDigit (Nat.mod_lt _ (by omega))
  simp [toHex8, h]

theorem sha1Hex_length (msg : List Nat) : (sha1Hex msg).length = 40 := rfl

theorem sha1Hex_hex (msg : List Nat) :
    (sha1Hex msg).all isLowerHexDigit = true := by
  unfold sha1Hex
  simp only [List.all_append, Bool.and_eq_true]
  exact ⟨⟨⟨⟨toHex8_hex _, toHex8_hex _⟩, toHex8_hex _⟩, toHex8_hex _⟩,
    toHex8_hex _⟩

/-- C7: `generate_stable_id` normalizes by default (so `"  Test  "` and
`"test"` collide) and skips normalization only on request (then they
differ); with a non-empty namespace it hashes the UTF-8 bytes of
`"{namespace}:{normalized}"`, else of the normalized value alone; and the
result is always a 40-character lowercase-hex token. -/
theorem generate_stable_id_contract :
    (generate_stable_id "  Test  ".data none true =
      generate_stable_id "test".data none true) ∧
    (generate_stable_id "  Test  ".data none false ≠
      generate_stable_id "test".data none false) ∧
    (∀ v ns, ns ≠ [] →
      generate_stable_id v (some ns) true =
        sha1Hex (utf8Encode (ns ++ ':' :: normalize_string v))) ∧
    (∀ v, generate_stable_id v none true =
      sha1Hex (utf8Encode (normalize_string v))) ∧
    (∀ v ns normalize, (generate_stable_id v ns normalize).length = 40 ∧
      (generate_stable_id v ns normalize).all isLowerHexDigit = true) := by
  refine ⟨by decide, by decide, ?_, ?_, ?_⟩
  · intro v ns hns
    have hne : ns.isEmpty = false := by
      cases ns with
      | nil => exact absurd rfl hns
      | cons _ _ => rfl
    simp [generate_stable_id, hne]
  · intro v; rfl
  · intro v ns normalize
    exact ⟨sha1Hex_length _, sha1Hex_hex _⟩

/-- Witness for C7's namespace clause at `"test"` / `"org"`. -/
theorem generate_stable_id_contract_witness :
    "org".data ≠ [] ∧
    generate_stable_id "test".data (some "org".data) true =
      sha1Hex (utf8Encode ("org".data ++ ':' :: normalize_string "test".data)) :=
  ⟨by decide, generate_stable_id_contract.2.2.1 _ _ (by decide)⟩

/-! ## The keyword classifiers (C4, C5) -/

theorem scanTable_eq_some_iff (m : List Char → List Char → Bool)
    (t : List Char) (tbl : List (String × List String)) (cat : String) :
    scanTable m t tbl = some cat ↔ ∃ i, firstMatchAt m tbl t i cat := by
  induction tbl with
  | nil =>
    constructor
    · intro h; cases h
    · rintro ⟨i, entry, hi, -⟩; simp at hi
  | cons e rest ih =>
    obtain ⟨c1, ks⟩ := e
    by_cases he : (ks.any fun kw => m kw.data t) = true
    · rw [show scanTable m t ((c1, ks) :: rest) =
        (if (ks.any fun kw => m kw.data t) = true then some c1
         else scanTable m t rest) from rfl, if_pos he]
      constructor
      · intro h
        injection h with h
        subst h
        exact ⟨0, (c1, ks), List.getElem?_cons_zero, rfl, he,
          fun j e2 hj _ => absurd hj (Nat.not_lt_zero j)⟩
      · rintro ⟨i, entry, hi, hcat, hany, hfirst⟩
        cases i with
        | zero =>
          rw [List.getElem?_cons_zero] at hi
          injection hi with hi
          subst hi
          rw [← hcat]
        | succ k =>
          have h0 := hfirst 0 (c1, ks) (Nat.succ_pos k)
            (by rw [List.getElem?_cons_zero])
          rw [h0] at he
          cases he
    · have he' : (ks.any fun kw => m kw.data t) = false := by simpa using he
      rw [show scanTable m t ((c1, ks) :: rest) =
        (if (ks.any fun kw => m kw.data t) = true then some c1
         else scanTable m t rest) from rfl, if_neg he, ih]
      constructor
      · rintro ⟨i, entry, hi, hcat, hany, hfirst⟩
        refine ⟨i + 1, entry, by rw [List.getElem?_cons_succ]; exact hi,
          hcat, hany, ?_⟩
        intro j e2 hj hje
        cases j with
        | zero =>
          rw [List.getElem?_cons_zero] at hje
          injection hje with hje
          subst hje
          exact he'
        | succ k =>
          rw [List.getElem?_cons_succ] at hje
          exact hfirst k e2 (Nat.lt_of_succ_lt_succ hj) hje
      · rintro ⟨i, entry, hi, hcat, hany, hfirst⟩
        cases i with
        | zero =>
          rw [List.getElem?_cons_zero] at hi
          injection hi with hi
          subst hi
          rw [hany] at he'
          cases he'
        | succ k =>
          refine ⟨k, entry, by rw [List.getElem?_cons_succ] at hi; exact hi,
            hcat, hany, ?_⟩
          intro j e2 hj hje
          exact hfirst (j + 1) e2 (Nat.succ_lt_succ hj)
            (by rw [List.getElem?_cons_succ]; exact hje)

theorem scanTable_eq_none_iff (m : List Char → List Char → Bool)
    (t : List Char) (tbl : List (String × List String)) :
    scanTable m t tbl = none ↔ noCategoryMatches m tbl t := by
  induction tbl with
  | nil =>
    constructor
    · intro _ i entry hi; simp at hi
    · intro _; rfl
  | cons e rest ih =>
    obtain ⟨c1, ks⟩ := e
    by_cases he : (ks.any fun kw => m kw.data t) = true
    · rw [show scanTable m t ((c1, ks) :: rest) =
        (if (ks.any fun kw => m kw.data t) = true then some c1
         else scanTable m t rest) from rfl, if_pos he]
      constructor
      · intro h; cases h
      · intro h
        have h0 := h 0 (c1, ks) (by rw [List.getElem?_cons_zero])
        rw [h0] at he
        cases he
    · have he' : (ks.any fun kw => m kw.data t) = false := by simpa using he
      rw [show scanTable m t ((c1, ks) :: rest) =
        (if (ks.any fun kw => m kw.data t) = true then some c1
         else scanTable m t rest) from rfl, if_neg he, ih]
      constructor
      · intro h i entry hi
        cases i with
        | zero =>
          rw [List.getElem?_cons_zero] at hi
          injection hi with hi
          subst hi
          exact he'
        | succ k =>
          rw [List.getElem?_cons_succ] at hi
          exact h k entry hi
      · intro h i entry hi
        exact h (i + 1) entry (by rw [List.getElem?_cons_succ]; exact hi)

/-- C4 (counterexample): the classifiers do not apply the Normalizer of
§4.1 — they only lowercase.  On `"by  mouth"` (two spaces) the source
classifier finds nothing, while normalize-then-scan finds `"oral"`. -/
theorem classifier_normalize_counterexample :
    normalize_route "by  mouth".data = none ∧
    normalize_route_specNormalized "by  mouth".data = some "oral" := by
  exact ⟨by decide, by decide⟩

/-- C4 (amended): the classifiers lowercase the input (no trimming or
whitespace collapsing, empty input yields absent) and then return the
first category in table-declaration order with a matching keyword; absent
exactly when no category matches.  Which keyword of the winning category
matched is not observable in the result, so within-category order cannot
affect the returned label. -/
theorem classifier_first_match_order (text : List Char) (cat : String) :
    (normalize_route text = some cat ↔
      text ≠ [] ∧
        ∃ i, firstMatchAt routeKwMatches ROUTE_KEYWORDS (text.map pyLower) i cat) ∧
    (normalize_route text = none ↔
      (text = [] ∨
        noCategoryMatches routeKwMatches ROUTE_KEYWORDS (text.map pyLower))) ∧
    (normalize_dosage_form text = some cat ↔
      text ≠ [] ∧
        ∃ i, firstMatchAt dosageKwMatches DOSAGE_FORM_KEYWORDS (text.map pyLower) i cat) ∧
    (normalize_dosage_form text = none ↔
      (text = [] ∨
        noCategoryMatches dosageKwMatches DOSAGE_FORM_KEYWORDS (text.map pyLower))) := by
  by_cases ht : text.isEmpty
  · have htn : text = [] := List.isEmpty_iff.mp ht
    subst htn
    refine ⟨?_, ?_, ?_, ?_⟩ <;>
      simp [normalize_route, normalize_dosage_form]
  · have htb : text.isEmpty = false := by simpa using ht
    have htn : text ≠ [] := fun e => by rw [e] at htb; cases htb
    simp only [normalize_route, normalize_dosage_form, htb,
      Bool.false_eq_true, if_false]
    rw [scanTable_eq_some_iff, scanTable_eq_none_iff,
      scanTable_eq_some_iff, scanTable_eq_none_iff]
    simp [htn]

/-- C5 (counterexample): `normalize_route("I.V")` returns absent, not
`"intravenous"`: the lowercased text `"i.v"` contains no occurrence of the
stripped abbreviation `"iv"`, is not the exact keyword `"i.v."`, and its
only whitespace token is `"i.v"`. -/
theorem route_iv_no_trailing_period_counterexample :
    normalize_route "I.V".data = none := by decide

/-- C5 (amended): `"i.v."` classifies as intravenous (exact-token match),
and the period-stripped abbreviation matches at word boundaries with an
optional trailing period (`"IV"`, `"given i.v."`); but `"I.V"` — medial
period kept, trailing period missing — matches nothing and yields absent. -/
theorem route_period_abbreviation :
    normalize_route "i.v.".data = some "intravenous" ∧
    normalize_route "IV".data = some "intravenous" ∧
    normalize_route "given i.v.".data = some "intravenous" ∧
    normalize_route "iv drip".data = some "intravenous" ∧
    normalize_route "I.V".data = none :=
  ⟨by decide, by decide, by decide, by decide, by decide⟩

/-! ## The merge-then-set-all batch upsert (C2) -/

theorem list_map_eq_self {α : Type} {l : List α} {f : α → α}
    (h : ∀ a ∈ l, f a = a) : l.map f = l := by
  induction l with
  | nil => rfl
  | cons x xs ih =>
    rw [List.map_cons, h x (List.mem_cons_self _ _),
      ih (fun a ha => h a (List.mem_cons_of_mem _ ha))]

theorem applyNodeBatch_cons {α : Type} (g : List (List Char × α))
    (r : List Char × α) (b : List (List Char × α)) :
    applyNodeBatch g (r :: b) = applyNodeBatch (upsertNode g r.1 r.2) b := rfl

theorem lastAttr_cons_some {α : Type} {b : List (List Char × α)}
    {key : List Char} {v : α} (k : List Char) (a : α)
    (hl : lastAttr b key = some v) : lastAttr ((k, a) :: b) key = some v := by
  simp only [lastAttr, hl]

theorem lastAttr_cons_none {α : Type} {b : List (List Char × α)}
    {key : List Char} (k : List Char) (a : α)
    (hl : lastAttr b key = none) :
    lastAttr ((k, a) :: b) key = if key = k then some a else none := by
  simp only [lastAttr, hl]

theorem hasKey_any {α : Type} (g : List (List Char × α)) (k : List Char) :
    (g.any fun p => p.1 == k) = true ↔ HasKey g k := by
  rw [List.any_eq_true]
  constructor
  · rintro ⟨p, hp, hpk⟩; exact ⟨p, hp, beq_iff_eq.mp hpk⟩
  · rintro ⟨p, hp, hpk⟩; exact ⟨p, hp, beq_iff_eq.mpr hpk⟩

theorem hasKey_upsertNode {α : Type} (g : List (List Char × α))
    (k : List Char) (a : α) (k' : List Char) :
    HasKey (upsertNode g k a) k' ↔ HasKey g k' ∨ k = k' := by
  unfold upsertNode
  by_cases hg : (g.any fun p => p.1 == k) = true
  · rw [if_pos hg]
    obtain ⟨p0, hp0, hp0k⟩ := (hasKey_any g k).mp hg
    constructor
    · rintro ⟨q, hq, hqk⟩
      rw [List.mem_map] at hq
      obtain ⟨p, hp, hpq⟩ := hq
      by_cases hpk : (p.1 == k) = true
      · rw [if_pos hpk] at hpq
        right
        rw [← hpq] at hqk
        exact hqk
      · rw [if_neg hpk] at hpq
        exact Or.inl ⟨p, hp, by rw [hpq]; exact hqk⟩
    · rintro (⟨p, hp, hpk'⟩ | hkk')
      · by_cases hpk : (p.1 == k) = true
        · refine ⟨(k, a), List.mem_map.mpr ⟨p, hp, by rw [if_pos hpk]⟩, ?_⟩
          rw [← hpk']
          exact (beq_iff_eq.mp hpk).symm
        · exact ⟨p, List.mem_map.mpr ⟨p, hp, by rw [if_neg hpk]⟩, hpk'⟩
      · exact ⟨(k, a), List.mem_map.mpr ⟨p0, hp0,
          by rw [if_pos (beq_iff_eq.mpr hp0k)]⟩, hkk'⟩
  · rw [if_neg hg]
    constructor
    · rintro ⟨q, hq, hqk⟩
      rcases List.mem_append.mp hq with hq | hq
      · exact Or.inl ⟨q, hq, hqk⟩
      · have : q = (k, a) := by simpa using hq
        subst this
        exact Or.inr hqk
    · rintro (⟨p, hp, hpk'⟩ | hkk')
      · exact ⟨p, List.mem_append_left _ hp, hpk'⟩
      · exact ⟨(k, a), List.mem_append_right _ (by simp), hkk'⟩

theorem hasKey_applyNodeBatch {α : Type} (b : List (List Char × α)) :
    ∀ (g : List (List Char × α)) (k : List Char),
      HasKey (applyNodeBatch g b) k ↔ HasKey g k ∨ ∃ a, (k, a) ∈ b := by
  induction b with
  | nil =>
    intro g k
    simp [applyNodeBatch]
  | cons r b ih =>
    intro g k
    obtain ⟨k', a'⟩ := r
    rw [applyNodeBatch_cons, ih, hasKey_upsertNode]
    constructor
    · rintro ((h | h) | ⟨a, ha⟩)
      · exact Or.inl h
      · exact Or.inr ⟨a', by rw [← h]; exact List.mem_cons_self _ _⟩
      · exact Or.inr ⟨a, List.mem_cons_of_mem _ ha⟩
    · rintro (h | ⟨a, ha⟩)
      · exact Or.inl (Or.inl h)
      · rcases List.mem_cons.mp ha with he | hm
        · rw [Prod.mk.injEq] at he
          exact Or.inl (Or.inr he.1.symm)
        · exact Or.inr ⟨a, hm⟩

theorem upsertNode_eq_map {α : Type} (g : List (List Char × α))
    (k : List Char) (a : α) (h : HasKey g k) :
    upsertNode g k a = g.map (fun p => if p.1 == k then (k, a) else p) := by
  unfold upsertNode
  rw [if_pos ((hasKey_any g k).mpr h)]

theorem applyNodeBatch_eq_map {α : Type} (b : List (List Char × α)) :
    ∀ g : List (List Char × α), (∀ p ∈ b, HasKey g p.1) →
      applyNodeBatch g b = g.map (fun p =>
        match lastAttr b p.1 with
        | some a => (p.1, a)
        | none => p) := by
  induction b with
  | nil =>
    intro g _
    show g = g.map (fun p => p)
    exact (list_map_eq_self (fun _ _ => rfl)).symm
  | cons r b ih =>
    intro g hg
    obtain ⟨k, a⟩ := r
    rw [applyNodeBatch_cons]
    have hk : HasKey g k := hg (k, a) (List.mem_cons_self _ _)
    have hb : ∀ p ∈ b, HasKey (upsertNode g k a) p.1 := by
      intro p hp
      rw [hasKey_upsertNode]
      exact Or.inl (hg p (List.mem_cons_of_mem _ hp))
    rw [ih _ hb, upsertNode_eq_map g k a hk, List.map_map]
    refine congrArg (fun f => List.map f g) (funext fun p => ?_)
    show (match lastAttr b (if p.1 == k then ((k : List Char), a) else p).1 with
      | some v => ((if p.1 == k then ((k : List Char), a) else p).1, v)
      | none => if p.1 == k then (k, a) else p) =
      (match lastAttr ((k, a) :: b) p.1 with
      | some v => (p.1, v)
      | none => p)
    by_cases hpk : (p.1 == k) = true
    · have hpe : p.1 = k := beq_iff_eq.mp hpk
      rw [if_pos hpk, hpe]
      cases hl : lastAttr b k with
      | some v => rw [lastAttr_cons_some k a hl]
      | none =>
        rw [lastAttr_cons_none k a hl]
        simp [hl]
    · rw [if_neg hpk]
      have hne : ¬p.1 = k := fun e => hpk (beq_iff_eq.mpr e)
      cases hl : lastAttr b p.1 with
      | some v => rw [lastAttr_cons_some k a hl]
      | none =>
        rw [lastAttr_cons_none k a hl]
        simp [hl, hne]

theorem upsertNode_entries_at {α : Type} (g : List (List Char × α))
    (k : List Char) (a : α) :
    ∀ p ∈ upsertNode g k a, p.1 = k → p = (k, a) := by
  intro p hp hpk
  unfold upsertNode at hp
  by_cases hg : (g.any fun q => q.1 == k) = true
  · rw [if_pos hg] at hp
    rw [List.mem_map] at hp
    obtain ⟨q, hq, hqp⟩ := hp
    by_cases hqk : (q.1 == k) = true
    · rw [if_pos hqk] at hqp
      exact hqp.symm
    · rw [if_neg hqk] at hqp
      subst hqp
      exact absurd (beq_iff_eq.mpr hpk) hqk
  · rw [if_neg hg] at hp
    rcases List.mem_append.mp hp with hp | hp
    · exact absurd ((hasKey_any g k).mpr ⟨p, hp, hpk⟩) hg
    · simpa using hp

theorem upsertNode_preserves_at {α : Type} (g : List (List Char × α))
    (k' : List Char) (a' : α) (k : List Char) (a : α) (hne : k ≠ k')
    (h : ∀ p ∈ g, p.1 = k → p = (k, a)) :
    ∀ p ∈ upsertNode g k' a', p.1 = k → p = (k, a) := by
  intro p hp hpk
  unfold upsertNode at hp
  by_cases hg : (g.any fun q => q.1 == k') = true
  · rw [if_pos hg] at hp
    rw [List.mem_map] at hp
    obtain ⟨q, hq, hqp⟩ := hp
    by_cases hqk : (q.1 == k') = true
    · rw [if_pos hqk] at hqp
      subst hqp
      exact absurd hpk.symm hne
    · rw [if_neg hqk] at hqp
      subst hqp
      exact h q hq hpk
  · rw [if_neg hg] at hp
    rcases List.mem_append.mp hp with hp | hp
    · exact h p hp hpk
    · have : p = (k', a') := by simpa using hp
      subst this
      exact absurd hpk.symm hne

theorem applyNodeBatch_entries_preserve {α : Type} (b : List (List Char × α)) :
    ∀ (g : List (List Char × α)) (k : List Char) (a : α),
      lastAttr b k = none → (∀ p ∈ g, p.1 = k → p = (k, a)) →
      ∀ p ∈ applyNodeBatch g b, p.1 = k → p = (k, a) := by
  induction b with
  | nil => intro g k a _ h; exact h
  | cons r b ih =>
    intro g k a hla h
    obtain ⟨k', a'⟩ := r
    have hbk : lastAttr b k = none := by
      cases hl : lastAttr b k with
      | some v => rw [lastAttr_cons_some k' a' hl] at hla; cases hla
      | none => rfl
    rw [lastAttr_cons_none k' a' hbk] at hla
    have hne : k ≠ k' := by
      intro e; rw [if_pos e] at hla; cases hla
    rw [applyNodeBatch_cons]
    exact ih _ k a hbk (upsertNode_preserves_at g k' a' k a hne h)

theorem applyNodeBatch_lastAttr {α : Type} (b : List (List Char × α)) :
    ∀ (g : List (List Char × α)) (k : List Char) (v : α),
      lastAttr b k = some v →
      ∀ p ∈ applyNodeBatch g b, p.1 = k → p = (k, v) := by
  induction b with
  | nil => intro g k v h; cases h
  | cons r b ih =>
    intro g k v h
    obtain ⟨k', a'⟩ := r
    cases hl : lastAttr b k with
    | some w =>
      rw [lastAttr_cons_some k' a' hl] at h
      injection h with hwv
      subst hwv
      rw [applyNodeBatch_cons]
      exact ih _ k _ hl
    | none =>
      rw [lastAttr_cons_none k' a' hl] at h
      by_cases hk : k = k'
      · rw [if_pos hk] at h
        injection h with hav
        subst hav
        subst hk
        rw [applyNodeBatch_cons]
        exact applyNodeBatch_entries_preserve b _ k a' hl
          (upsertNode_entries_at g k a')
      · rw [if_neg hk] at h
        cases h

theorem applyNodeBatch_idempotent {α : Type} (g b : List (List Char × α)) :
    applyNodeBatch (applyNodeBatch g b) b = applyNodeBatch g b := by
  have hkeys : ∀ p ∈ b, HasKey (applyNodeBatch g b) p.1 := by
    intro p hp
    rw [hasKey_applyNodeBatch]
    exact Or.inr ⟨p.2, hp⟩
  rw [applyNodeBatch_eq_map b _ hkeys]
  apply list_map_eq_self
  intro p hp
  cases hl : lastAttr b p.1 with
  | none => simp [hl]
  | some v =>
    simp only [hl]
    exact (applyNodeBatch_lastAttr b g p.1 v hl p hp rfl).symm

/-- C2: the merge-then-set-all batch upsert is idempotent — applying the
same node batch twice gives the same end state as applying it once, so the
node count is unchanged and every non-key attribute keeps the second
application's value; instantiated in particular at `LOAD_TRIALS_BATCH`. -/
theorem batch_upsert_idempotent :
    (∀ (α : Type) (g batch : List (List Char × α)),
      applyNodeBatch (applyNodeBatch g batch) batch = applyNodeBatch g batch ∧
      (applyNodeBatch (applyNodeBatch g batch) batch).length =
        (applyNodeBatch g batch).length) ∧
    (∀ (g : List (List Char × TrialRec)) (trials : List TrialRec),
      load_trials_batch (load_trials_batch g trials) trials =
        load_trials_batch g trials) := by
  constructor
  · intro α g batch
    exact ⟨applyNodeBatch_idempotent g batch,
      by rw [applyNodeBatch_idempotent]⟩
  · intro g trials
    exact applyNodeBatch_idempotent _ _

/-! ## Entity resolution: dedup (C1) and referential integrity (C9) -/

theorem transformOrgsAux_cons_skip (seen : List (List Char)) (row : SponsorRow)
    (rest : List SponsorRow) (h : row.name.isEmpty = true) :
    transformOrgsAux seen (row :: rest) = transformOrgsAux seen rest := by
  simp only [transformOrgsAux, h, if_true]

theorem transformOrgsAux_cons_seen (seen : List (List Char)) (row : SponsorRow)
    (rest : List SponsorRow) (h : row.name.isEmpty = false)
    (h2 : orgIdOf row ∈ seen) :
    transformOrgsAux seen (row :: rest) =
      ((transformOrgsAux seen rest).1,
        orgEdgeOf row :: (transformOrgsAux seen rest).2) := by
  simp only [transformOrgsAux, h, Bool.false_eq_true, if_false, if_pos h2]

theorem transformOrgsAux_cons_new (seen : List (List Char)) (row : SponsorRow)
    (rest : List SponsorRow) (h : row.name.isEmpty = false)
    (h2 : orgIdOf row ∉ seen) :
    transformOrgsAux seen (row :: rest) =
      (orgRecOf row :: (transformOrgsAux (orgIdOf row :: seen) rest).1,
        orgEdgeOf row :: (transformOrgsAux (orgIdOf row :: seen) rest).2) := by
  simp only [transformOrgsAux, h, Bool.false_eq_true, if_false, if_neg h2]

/-- Once an id is in the dedup map, later rows of that id add edges only. -/
theorem transformOrgsAux_all_same (rows : List SponsorRow) :
    ∀ (seen : List (List Char)) (oid : List Char),
      (∀ r ∈ rows, r.name ≠ [] → orgIdOf r = oid) → oid ∈ seen →
      (transformOrgsAux seen rows).1 = [] ∧
      (transformOrgsAux seen rows).2.length =
        (rows.filter (fun r => !r.name.isEmpty)).length ∧
      ∀ e ∈ (transformOrgsAux seen rows).2, e.org_id = oid := by
  induction rows with
  | nil =>
    intro seen oid _ _
    exact ⟨rfl, rfl, fun e he => absurd he (List.not_mem_nil e)⟩
  | cons row rest ih =>
    intro seen oid hall hseen
    have htail := ih seen oid
      (fun r hr hn => hall r (List.mem_cons_of_mem _ hr) hn) hseen
    by_cases hn : row.name.isEmpty = true
    · rw [transformOrgsAux_cons_skip seen row rest hn, List.filter_cons]
      simp only [hn, Bool.not_true, Bool.false_eq_true, if_false]
      exact htail
    · have hnf : row.name.isEmpty = false := by simpa using hn
      have hne : row.name ≠ [] := fun e => by rw [e] at hnf; cases hnf
      have hoid : orgIdOf row = oid := hall row (List.mem_cons_self _ _) hne
      rw [transformOrgsAux_cons_seen seen row rest hnf (by rw [hoid]; exact hseen),
        List.filter_cons]
      simp only [hnf, Bool.not_false, if_true]
      refine ⟨htail.1, ?_, ?_⟩
      · simp only [List.length_cons, htail.2.1]
      · intro e he
        rcases List.mem_cons.mp he with he | he
        · rw [he]; exact hoid
        · exact htail.2.2 e he

/-- The dedup argument for `transform_organizations` over a table whose
kept rows all share one normalized name. -/
theorem transformOrgsAux_dedup (rows : List SponsorRow) :
    ∀ t : List Char,
      (∀ r ∈ rows, r.name ≠ [] → normalize_string r.name = t) →
      ∀ (r0 : SponsorRow) (rest0 : List SponsorRow),
        rows.filter (fun r => !r.name.isEmpty) = r0 :: rest0 →
        (transformOrgsAux [] rows).1 =
          [{ org_id := generate_stable_id t (some "org".data) true,
             name_norm := t, name_raw := r0.name,
             agency_class := r0.agency_class }] ∧
        (transformOrgsAux [] rows).2.length =
          (rows.filter (fun r => !r.name.isEmpty)).length ∧
        ∀ e ∈ (transformOrgsAux [] rows).2,
          e.org_id = generate_stable_id t (some "org".data) true := by
  induction rows with
  | nil =>
    intro t _ r0 rest0 hfirst
    exact absurd hfirst (by simp)
  | cons row rest ih =>
    intro t hall r0 rest0 hfirst
    by_cases hn : row.name.isEmpty = true
    · rw [List.filter_cons] at hfirst
      simp only [hn, Bool.not_true, Bool.false_eq_true, if_false] at hfirst
      rw [transformOrgsAux_cons_skip [] row rest hn, List.filter_cons]
      simp only [hn, Bool.not_true, Bool.false_eq_true, if_false]
      exact ih t (fun r hr hn' => hall r (List.mem_cons_of_mem _ hr) hn')
        r0 rest0 hfirst
    · have hnf : row.name.isEmpty = false := by simpa using hn
      have hne : row.name ≠ [] := fun e => by rw [e] at hnf; cases hnf
      have hnorm : normalize_string row.name = t :=
        hall row (List.mem_cons_self _ _) hne
      have hoid : orgIdOf row = generate_stable_id t (some "org".data) true := by
        unfold orgIdOf
        rw [hnorm]
      rw [List.filter_cons] at hfirst
      simp only [hnf, Bool.not_false, if_true] at hfirst
      injection hfirst with h1 h2
      subst h1
      rw [transformOrgsAux_cons_new [] row rest hnf (List.not_mem_nil _),
        List.filter_cons]
      simp only [hnf, Bool.not_false, if_true]
      have htail := transformOrgsAux_all_same rest (orgIdOf row :: [])
        (generate_stable_id t (some "org".data) true)
        (fun r hr hn' => by
          unfold orgIdOf
          rw [hall r (List.mem_cons_of_mem _ hr) hn'])
        (by rw [hoid]; exact List.mem_cons_self _ _)
      refine ⟨?_, ?_, ?_⟩
      · rw [htail.1]
        simp [orgRecOf, hoid, hnorm]
      · simp only [List.length_cons, htail.2.1]
      · intro e he
        rcases List.mem_cons.mp he with he | he
        · rw [he]; exact hoid
        · exact htail.2.2 e he

/-- C1: if every kept sponsor row's organization name normalizes to the
same string `t`, `transform_organizations` emits exactly one Organization
row — carrying the first kept row's raw name and agency class — and one
edge per kept row, every edge referencing that organization's id. -/
theorem sponsor_dedup_single_org (rows : List SponsorRow) (t : List Char)
    (hall : ∀ r ∈ rows, r.name ≠ [] → normalize_string r.name = t)
    (r0 : SponsorRow) (rest0 : List SponsorRow)
    (hfirst : rows.filter (fun r => !r.name.isEmpty) = r0 :: rest0) :
    (transform_organizations rows).1 =
      [{ org_id := generate_stable_id t (some "org".data) true,
         name_norm := t, name_raw := r0.name,
         agency_class := r0.agency_class }] ∧
    (transform_organizations rows).2.length =
      (rows.filter (fun r => !r.name.isEmpty)).length ∧
    ∀ e ∈ (transform_organizations rows).2,
      e.org_id = generate_stable_id t (some "org".data) true :=
  transformOrgsAux_dedup rows t hall r0 rest0 hfirst

/-- Witness for C1: two raw spellings of the same organization collapse to
one record keeping the first row's raw form, with one edge per row. -/
theorem sponsor_dedup_single_org_witness :
    (∀ r ∈ ([⟨"NCT1".data, "Pfizer Inc.".data, "INDUSTRY".data, "lead".data⟩,
        ⟨"NCT2".data, "PFIZER  INC.".data, "OTHER".data, "collaborator".data⟩] :
        List SponsorRow),
      r.name ≠ [] → normalize_string r.name = "pfizer inc.".data) ∧
    ([⟨"NCT1".data, "Pfizer Inc.".data, "INDUSTRY".data, "lead".data⟩,
      ⟨"NCT2".data, "PFIZER  INC.".data, "OTHER".data, "collaborator".data⟩] :
      List SponsorRow).filter (fun r => !r.name.isEmpty) =
      ⟨"NCT1".data, "Pfizer Inc.".data, "INDUSTRY".data, "lead".data⟩ ::
        [⟨"NCT2".data, "PFIZER  INC.".data, "OTHER".data, "collaborator".data⟩] ∧
    ((transform_organizations
        [⟨"NCT1".data, "Pfizer Inc.".data, "INDUSTRY".data, "lead".data⟩,
         ⟨"NCT2".data, "PFIZER  INC.".data, "OTHER".data, "collaborator".data⟩]).1 =
      [{ org_id := generate_stable_id "pfizer inc.".data (some "org".data) true,
         name_norm := "pfizer inc.".data, name_raw := "Pfizer Inc.".data,
         agency_class := "INDUSTRY".data }] ∧
     (transform_organizations
        [⟨"NCT1".data, "Pfizer Inc.".data, "INDUSTRY".data, "lead".data⟩,
         ⟨"NCT2".data, "PFIZER  INC.".data, "OTHER".data, "collaborator".data⟩]).2.length =
      (([⟨"NCT1".data, "Pfizer Inc.".data, "INDUSTRY".data, "lead".data⟩,
         ⟨"NCT2".data, "PFIZER  INC.".data, "OTHER".data, "collaborator".data⟩] :
         List SponsorRow).filter (fun r => !r.name.isEmpty)).length ∧
     ∀ e ∈ (transform_organizations
        [⟨"NCT1".data, "Pfizer Inc.".data, "INDUSTRY".data, "lead".data⟩,
         ⟨"NCT2".data, "PFIZER  INC.".data, "OTHER".data, "collaborator".data⟩]).2,
       e.org_id = generate_stable_id "pfizer inc.".data (some "org".data) true) :=
  ⟨by decide, by decide,
    sponsor_dedup_single_org
      [⟨"NCT1".data, "Pfizer Inc.".data, "INDUSTRY".data, "lead".data⟩,
       ⟨"NCT2".data, "PFIZER  INC.".data, "OTHER".data, "collaborator".data⟩]
      "pfizer inc.".data (by decide)
      ⟨"NCT1".data, "Pfizer Inc.".data, "INDUSTRY".data, "lead".data⟩
      [⟨"NCT2".data, "PFIZER  INC.".data, "OTHER".data, "collaborator".data⟩]
      (by decide)⟩

theorem transformOrgsAux_edges_ref (rows : List SponsorRow) :
    ∀ seen : List (List Char),
      ∀ e ∈ (transformOrgsAux seen rows).2, e.org_id ∈ seen ∨
        ∃ o ∈ (transformOrgsAux seen rows).1, o.org_id = e.org_id := by
  induction rows with
  | nil => intro seen e he; exact absurd he (List.not_mem_nil e)
  | cons row rest ih =>
    intro seen e he
    by_cases hn : row.name.isEmpty = true
    · rw [transformOrgsAux_cons_skip _ _ _ hn] at he ⊢
      exact ih seen e he
    · have hnf : row.name.isEmpty = false := by simpa using hn
      by_cases hs : orgIdOf row ∈ seen
      · rw [transformOrgsAux_cons_seen _ _ _ hnf hs] at he ⊢
        rcases List.mem_cons.mp he with he | he
        · left; rw [he]; exact hs
        · exact ih seen e he
      · rw [transformOrgsAux_cons_new _ _ _ hnf hs] at he ⊢
        rcases List.mem_cons.mp he with he | he
        · exact Or.inr ⟨orgRecOf row, List.mem_cons_self _ _, by rw [he]; rfl⟩
        · rcases ih (orgIdOf row :: seen) e he with hin | ⟨o, ho, hoe⟩
          · rcases List.mem_cons.mp hin with h | h
            · exact Or.inr ⟨orgRecOf row, List.mem_cons_self _ _, h.symm⟩
            · exact Or.inl h
          · exact Or.inr ⟨o, List.mem_cons_of_mem _ ho, hoe⟩

theorem transformDrugsAux_cons_skip (seen : List (List Char))
    (row : InterventionRow) (rest : List InterventionRow)
    (h : row.intervention_name.isEmpty = true) :
    transformDrugsAux seen (row :: rest) = transformDrugsAux seen rest := by
  simp only [transformDrugsAux, h, if_true]

theorem transformDrugsAux_cons_notdrug (seen : List (List Char))
    (row : InterventionRow) (rest : List InterventionRow)
    (h : row.intervention_name.isEmpty = false)
    (h2 : row.intervention_type ∉ drugTypes) :
    transformDrugsAux seen (row :: rest) = transformDrugsAux seen rest := by
  simp only [transformDrugsAux, h, Bool.false_eq_true, if_false, if_neg h2]

theorem transformDrugsAux_cons_seen (seen : List (List Char))
    (row : InterventionRow) (rest : List InterventionRow)
    (h : row.intervention_name.isEmpty = false)
    (h2 : row.intervention_type ∈ drugTypes) (h3 : drugIdOf row ∈ seen) :
    transformDrugsAux seen (row :: rest) =
      ((transformDrugsAux seen rest).1,
        drugEdgeOf row :: (transformDrugsAux seen rest).2) := by
  simp only [transformDrugsAux, h, Bool.false_eq_true, if_false, if_pos h2,
    if_pos h3]

theorem transformDrugsAux_cons_new (seen : List (List Char))
    (row : InterventionRow) (rest : List InterventionRow)
    (h : row.intervention_name.isEmpty = false)
    (h2 : row.intervention_type ∈ drugTypes) (h3 : drugIdOf row ∉ seen) :
    transformDrugsAux seen (row :: rest) =
      (drugRecOf row :: (transformDrugsAux (drugIdOf row :: seen) rest).1,
        drugEdgeOf row :: (transformDrugsAux (drugIdOf row :: seen) rest).2) := by
  simp only [transformDrugsAux, h, Bool.false_eq_true, if_false, if_pos h2,
    if_neg h3]

theorem transformDrugsAux_edges_ref (rows : List InterventionRow) :
    ∀ seen : List (List Char),
      ∀ e ∈ (transformDrugsAux seen rows).2, e.drug_id ∈ seen ∨
        ∃ d ∈ (transformDrugsAux seen rows).1, d.drug_id = e.drug_id := by
  induction rows with
  | nil => intro seen e he; exact absurd he (List.not_mem_nil e)
  | cons row rest ih =>
    intro seen e he
    by_cases hn : row.intervention_name.isEmpty = true
    · rw [transformDrugsAux_cons_skip _ _ _ hn] at he ⊢
      exact ih seen e he
    · have hnf : row.intervention_name.isEmpty = false := by simpa using hn
      by_cases ht : row.intervention_type ∈ drugTypes
      · by_cases hs : drugIdOf row ∈ seen
        · rw [transformDrugsAux_cons_seen _ _ _ hnf ht hs] at he ⊢
          rcases List.mem_cons.mp he with he | he
          · left; rw [he]; exact hs
          · exact ih seen e he
        · rw [transformDrugsAux_cons_new _ _ _ hnf ht hs] at he ⊢
          rcases List.mem_cons.mp he with he | he
          · exact Or.inr ⟨drugRecOf row, List.mem_cons_self _ _, by rw [he]; rfl⟩
          · rcases ih (drugIdOf row :: seen) e he with hin | ⟨d, hd, hde⟩
            · rcases List.mem_cons.mp hin with h | h
              · exact Or.inr ⟨drugRecOf row, List.mem_cons_self _ _, h.symm⟩
              · exact Or.inl h
            · exact Or.inr ⟨d, List.mem_cons_of_mem _ hd, hde⟩
      · rw [transformDrugsAux_cons_notdrug _ _ _ hnf ht] at he ⊢
        exact ih seen e he

/-- C9: referential consistency — every trial-organization edge's `org_id`
is the id of a row of the organizations table, and every trial-drug edge's
`drug_id` is the id of a row of the drugs table. -/
theorem edges_reference_existing_nodes (sponsors : List SponsorRow)
    (interventions : List InterventionRow) :
    (∀ e ∈ (transform_organizations sponsors).2,
      ∃ o ∈ (transform_organizations sponsors).1, o.org_id = e.org_id) ∧
    (∀ e ∈ (transform_drugs interventions).2,
      ∃ d ∈ (transform_drugs interventions).1, d.drug_id = e.drug_id) := by
  constructor
  · intro e he
    rcases transformOrgsAux_edges_ref sponsors [] e he with h | h
    · exact absurd h (List.not_mem_nil _)
    · exact h
  · intro e he
    rcases transformDrugsAux_edges_ref interventions [] e he with h | h
    · exact absurd h (List.not_mem_nil _)
    · exact h

/-- Witness for C9 on a one-sponsor, one-drug-intervention input. -/
theorem edges_reference_existing_nodes_witness :
    (orgEdgeOf ⟨"NCT1".data, "Pfizer Inc.".data, "INDUSTRY".data, "lead".data⟩ ∈
      (transform_organizations
        [⟨"NCT1".data, "Pfizer Inc.".data, "INDUSTRY".data, "lead".data⟩]).2) ∧
    (∃ o ∈ (transform_organizations
        [⟨"NCT1".data, "Pfizer Inc.".data, "INDUSTRY".data, "lead".data⟩]).1,
      o.org_id =
        (orgEdgeOf ⟨"NCT1".data, "Pfizer Inc.".data, "INDUSTRY".data,
          "lead".data⟩).org_id) :=
  ⟨by decide,
    (edges_reference_existing_nodes
      [⟨"NCT1".data, "Pfizer Inc.".data, "INDUSTRY".data, "lead".data⟩] []).1 _
      (by decide)⟩

/-! ## Trial-level aggregation (C6) -/

theorem head_filterMap_eq_some_iff {α β : Type} (f : α → Option β)
    (l : List α) (x : β) :
    (l.filterMap f).head? = some x ↔
      ∃ (j : Nat) (a : α), l[j]? = some a ∧ f a = some x ∧
        ∀ (k : Nat) (b : α), k < j → l[k]? = some b → f b = none := by
  induction l with
  | nil =>
    constructor
    · intro h; cases h
    · rintro ⟨j, a, hj, -⟩; simp at hj
  | cons a l ih =>
    cases hf : f a with
    | some y =>
      rw [List.filterMap_cons_some hf]
      simp only [List.head?_cons]
      constructor
      · intro h
        injection h with h
        subst h
        exact ⟨0, a, List.getElem?_cons_zero, hf,
          fun k b hk _ => absurd hk (Nat.not_lt_zero k)⟩
      · rintro ⟨j, b, hj, hfb, hfirst⟩
        cases j with
        | zero =>
          rw [List.getElem?_cons_zero] at hj
          injection hj with hj
          subst hj
          rw [hf] at hfb
          injection hfb with hfb
          rw [hfb]
        | succ k =>
          have h0 := hfirst 0 a (Nat.succ_pos k) List.getElem?_cons_zero
          rw [hf] at h0
          cases h0
    | none =>
      rw [List.filterMap_cons_none hf, ih]
      constructor
      · rintro ⟨j, b, hj, hfb, hfirst⟩
        refine ⟨j + 1, b, by rw [List.getElem?_cons_succ]; exact hj, hfb, ?_⟩
        intro k c hk hkc
        cases k with
        | zero =>
          rw [List.getElem?_cons_zero] at hkc
          injection hkc with hkc
          subst hkc
          exact hf
        | succ m =>
          rw [List.getElem?_cons_succ] at hkc
          exact hfirst m c (Nat.lt_of_succ_lt_succ hk) hkc
      · rintro ⟨j, b, hj, hfb, hfirst⟩
        cases j with
        | zero =>
          rw [List.getElem?_cons_zero] at hj
          injection hj with hj
          subst hj
          rw [hf] at hfb
          cases hfb
        | succ m =>
          refine ⟨m, b, by rw [List.getElem?_cons_succ] at hj; exact hj, hfb, ?_⟩
          intro k c hk hkc
          exact hfirst (k + 1) c (Nat.succ_lt_succ hk)
            (by rw [List.getElem?_cons_succ]; exact hkc)

theorem head_filterMap_eq_none_iff {α β : Type} (f : α → Option β)
    (l : List α) :
    (l.filterMap f).head? = none ↔
      ∀ (j : Nat) (a : α), l[j]? = some a → f a = none := by
  rw [List.head?_eq_none_iff, List.filterMap_eq_nil_iff]
  constructor
  · intro h j a hj
    exact h a (List.mem_iff_getElem?.mpr ⟨j, hj⟩)
  · intro h a ha
    obtain ⟨j, hj⟩ := List.mem_iff_getElem?.mp ha
    exact h j a hj

/-- The two lists collected by `aggregate_trial_route_dosage`'s loop are
the `filterMap`s of the per-intervention classifications. -/
theorem collectRouteDosage_eq (l : List InterventionRow) :
    collectRouteDosage l =
      (l.filterMap (fun r =>
          (extract_route_and_dosage r.intervention_name r.intervention_type).1),
       l.filterMap (fun r =>
          (extract_route_and_dosage r.intervention_name r.intervention_type).2)) := by
  induction l with
  | nil => rfl
  | cons r l ih =>
    simp only [collectRouteDosage, ih, List.filterMap_cons]
    cases h1 : (extract_route_and_dosage r.intervention_name r.intervention_type).1 <;>
      cases h2 : (extract_route_and_dosage r.intervention_name r.intervention_type).2 <;>
        simp [h1, h2]

/-- C6 (amended): the Trials table has exactly one row per study row; its
route is the first non-absent route and its dosage form the first
non-absent dosage form produced by `extract_route_and_dosage` over the
trial's interventions in row order (independently — they may come from
different interventions), where an intervention with an empty name never
classifies (the code skips it before looking at its type); both fields are
absent when no intervention classifies. -/
theorem transform_trials_first_match (studies : List StudyRow)
    (interventions : List InterventionRow) :
    (transform_trials studies interventions).length = studies.length ∧
    ∀ (i : Nat) (s : StudyRow), studies[i]? = some s →
      ∃ tr : TrialRec, (transform_trials studies interventions)[i]? = some tr ∧
        tr.nct_id = s.nct_id ∧ tr.title = s.brief_title ∧
        (∀ x : String, tr.route = some x ↔
          ∃ (j : Nat) (r : InterventionRow),
            (trialInterventionsOf interventions s.nct_id)[j]? = some r ∧
            (extract_route_and_dosage r.intervention_name r.intervention_type).1
              = some x ∧
            ∀ (k : Nat) (r2 : InterventionRow), k < j →
              (trialInterventionsOf interventions s.nct_id)[k]? = some r2 →
              (extract_route_and_dosage r2.intervention_name
                r2.intervention_type).1 = none) ∧
        (tr.route = none ↔
          ∀ (j : Nat) (r : InterventionRow),
            (trialInterventionsOf interventions s.nct_id)[j]? = some r →
            (extract_route_and_dosage r.intervention_name
              r.intervention_type).1 = none) ∧
        (∀ y : String, tr.dosage_form = some y ↔
          ∃ (j : Nat) (r : InterventionRow),
            (trialInterventionsOf interventions s.nct_id)[j]? = some r ∧
            (extract_route_and_dosage r.intervention_name r.intervention_type).2
              = some y ∧
            ∀ (k : Nat) (r2 : InterventionRow), k < j →
              (trialInterventionsOf interventions s.nct_id)[k]? = some r2 →
              (extract_route_and_dosage r2.intervention_name
                r2.intervention_type).2 = none) ∧
        (tr.dosage_form = none ↔
          ∀ (j : Nat) (r : InterventionRow),
            (trialInterventionsOf interventions s.nct_id)[j]? = some r →
            (extract_route_and_dosage r.intervention_name
              r.intervention_type).2 = none) := by
  constructor
  · unfold transform_trials
    exact List.length_map _ _
  · intro i s hs
    have h1 : (transform_trials studies interventions)[i]? = some
        { nct_id := s.nct_id, title := s.brief_title, phase := s.phase,
          status := s.overall_status, start_date := s.start_date,
          completion_date := s.completion_date, study_type := s.study_type,
          route := (aggregate_trial_route_dosage interventions s.nct_id).1,
          dosage_form := (aggregate_trial_route_dosage interventions s.nct_id).2 } := by
      unfold transform_trials
      rw [List.getElem?_map, hs]
      rfl
    have hagg1 : (aggregate_trial_route_dosage interventions s.nct_id).1 =
        ((trialInterventionsOf interventions s.nct_id).filterMap (fun r =>
          (extract_route_and_dosage r.intervention_name
            r.intervention_type).1)).head? := by
      unfold aggregate_trial_route_dosage
      rw [collectRouteDosage_eq]
    have hagg2 : (aggregate_trial_route_dosage interventions s.nct_id).2 =
        ((trialInterventionsOf interventions s.nct_id).filterMap (fun r =>
          (extract_route_and_dosage r.intervention_name
            r.intervention_type).2)).head? := by
      unfold aggregate_trial_route_dosage
      rw [collectRouteDosage_eq]
    refine ⟨_, h1, rfl, rfl, ?_, ?_, ?_, ?_⟩
    · intro x
      show (aggregate_trial_route_dosage interventions s.nct_id).1 = some x ↔ _
      rw [hagg1]
      exact head_filterMap_eq_some_iff _ _ x
    · show (aggregate_trial_route_dosage interventions s.nct_id).1 = none ↔ _
      rw [hagg1]
      exact head_filterMap_eq_none_iff _ _
    · intro y
      show (aggregate_trial_route_dosage interventions s.nct_id).2 = some y ↔ _
      rw [hagg2]
      exact head_filterMap_eq_some_iff _ _ y
    · show (aggregate_trial_route_dosage interventions s.nct_id).2 = none ↔ _
      rw [hagg2]
      exact head_filterMap_eq_none_iff _ _

/-- C6 (counterexample): an intervention with an empty name and a
classifiable type text never contributes — the code short-circuits before
classifying — although the claimed "classify the concatenation of name and
type" yields `"oral"`/`"tablet"` on that concatenation (`" oral tablet"`). -/
theorem trial_empty_name_counterexample :
    (transform_trials [{ nct_id := "NCT1".data }]
      [{ nct_id := "NCT1".data, intervention_name := [],
         intervention_type := "oral tablet".data }]).map
        (fun tr => (tr.route, tr.dosage_form)) = [(none, none)] ∧
    normalize_route (([] : List Char) ++ ' ' :: "oral tablet".data) =
      some "oral" ∧
    normalize_dosage_form (([] : List Char) ++ ' ' :: "oral tablet".data) =
      some "tablet" :=
  ⟨by decide, by decide, by decide⟩

/-- Witness for C6 on a one-study, one-intervention table. -/
theorem transform_trials_first_match_witness :
    (([⟨"NCT1".data, "T".data, [], [], [], [], []⟩] : List StudyRow))[0]? =
      some (⟨"NCT1".data, "T".data, [], [], [], [], []⟩ : StudyRow) ∧
    ∃ tr : TrialRec,
      (transform_trials [⟨"NCT1".data, "T".data, [], [], [], [], []⟩]
        [⟨"NCT1".data, "oral tablet".data, "Drug".data⟩])[0]? = some tr ∧
      tr.nct_id = "NCT1".data :=
  ⟨by decide, by
    obtain ⟨tr, htr, hn, -⟩ := (transform_trials_first_match
      [⟨"NCT1".data, "T".data, [], [], [], [], []⟩]
      [⟨"NCT1".data, "oral tablet".data, "Drug".data⟩]).2 0
      ⟨"NCT1".data, "T".data, [], [], [], [], []⟩ (by decide)
    exact ⟨tr, htr, hn⟩⟩

/-! ## Schema check and optional-column defaults (C8) -/

/-- C8 (counterexample): `brief_title` is not one of the claim's
"structurally required identifier columns", yet the ingester's schema
check fails fatally when it is absent from a studies table. -/
theorem load_table_strict_columns_counterexample :
    load_table ⟨["nct_id".data, "phase".data, "overall_status".data], []⟩
      studiesRequiredColumns = .error ["brief_title".data] := by decide

theorem mapM_mkSponsorRow_ok (rows : List RowMap)
    (h : ∀ row ∈ rows,
      (row.find? (fun p => p.1 == "nct_id".data)).isSome = true ∧
      (rowGet row "lead_or_collaborator".data).isSome = true) :
    ∃ l, rows.mapM mkSponsorRow = Except.ok l := by
  induction rows with
  | nil => exact ⟨[], rfl⟩
  | cons row rest ih =>
    obtain ⟨l, hl⟩ := ih (fun r hr => h r (List.mem_cons_of_mem _ hr))
    obtain ⟨hrow1, hrow2⟩ := h row (List.mem_cons_self _ _)
    cases hp : row.find? (fun p => p.1 == "nct_id".data) with
    | none => rw [hp] at hrow1; cases hrow1
    | some p =>
      cases hrel : rowGet row "lead_or_collaborator".data with
      | none => rw [hrel] at hrow2; cases hrow2
      | some rel =>
        have hok : mkSponsorRow row = Except.ok
            { nct_id := p.2.getD [],
              name := (rowGet row "name".data).getD [],
              agency_class := (rowGet row "agency_class".data).getD [],
              lead_or_collaborator := rel } := by
          unfold mkSponsorRow rowGetHard
          rw [hp, hrel]
        exact ⟨_, by rw [List.mapM_cons, hok, hl]; rfl⟩

/-- C8 (amended): the fail-fast schema check errors exactly when one of
the configured required columns — per table: studies `{nct_id,
brief_title, phase, overall_status}`, sponsors `{nct_id, name,
agency_class, lead_or_collaborator}`, interventions `{nct_id,
intervention_name, intervention_type}` — is absent, before looking at any
row (the outcome is independent of the rows); columns read via
`row.get(·, "")` default to the empty string when absent.  Row processing
succeeds whenever every row carries its `nct_id` field and a non-`NaN`
`lead_or_collaborator` value (an absent column counts, defaulting to
`""`); a present-but-`NaN` `lead_or_collaborator` fails with
`AttributeError`, because `.upper()` runs on the raw value before the
skip test. -/
theorem schema_check_and_optional_defaults :
    (∀ (cols : List (List Char)) (rows rows' : List RowMap)
        (req m : List (List Char)),
      load_table ⟨cols, rows⟩ req = .error m ↔
        load_table ⟨cols, rows'⟩ req = .error m) ∧
    (∀ (t : RawTable) (req : List (List Char)),
      (∃ c ∈ req, c ∉ t.cols) ↔ ∃ m, load_table t req = .error m) ∧
    (∀ (row : RowMap) (col : List Char),
      row.find? (fun p => p.1 == col) = none → rowGet row col = some []) ∧
    (∀ rows : List RowMap,
      (∀ row ∈ rows,
        (row.find? (fun p => p.1 == "nct_id".data)).isSome = true ∧
        (rowGet row "lead_or_collaborator".data).isSome = true) →
      ∃ out, transform_organizations_checked rows = .ok out) ∧
    (∀ row : RowMap,
      (row.find? (fun p => p.1 == "nct_id".data)).isSome = true →
      rowGet row "lead_or_collaborator".data = none →
      mkSponsorRow row = .error "AttributeError".data) := by
  refine ⟨?_, ?_, ?_, ?_, ?_⟩
  · intro cols rows rows' req m
    unfold load_table
    by_cases h : (req.filter (fun c => ¬ c ∈ cols)).isEmpty
    · rw [if_pos h, if_pos h]
      exact ⟨fun hc => Except.noConfusion hc, fun hc => Except.noConfusion hc⟩
    · rw [if_neg h, if_neg h]
  · intro t req
    unfold load_table
    by_cases h : (req.filter (fun c => ¬ c ∈ t.cols)).isEmpty
    · have hnil : req.filter (fun c => ¬ c ∈ t.cols) = [] :=
        List.isEmpty_iff.mp h
      rw [if_pos h]
      constructor
      · rintro ⟨c, hc, hcn⟩
        have := List.filter_eq_nil_iff.mp hnil c hc
        simp at this
        exact absurd this hcn
      · rintro ⟨m, hm⟩
        cases hm
    · rw [if_neg h]
      constructor
      · intro _
        exact ⟨_, rfl⟩
      · intro _
        cases hf : req.filter (fun c => ¬ c ∈ t.cols) with
        | nil => rw [hf] at h; exact absurd rfl h
        | cons c cs =>
          have hc : c ∈ req.filter (fun c => ¬ c ∈ t.cols) := by
            rw [hf]; exact List.mem_cons_self _ _
          have := List.mem_filter.mp hc
          refine ⟨c, this.1, ?_⟩
          simpa using this.2
  · intro row col h
    unfold rowGet
    rw [h]
  · intro rows h
    obtain ⟨l, hl⟩ := mapM_mkSponsorRow_ok rows h
    refine ⟨transform_organizations l, ?_⟩
    unfold transform_organizations_checked
    rw [hl]
    rfl
  · intro row h1 h2
    cases hp : row.find? (fun p => p.1 == "nct_id".data) with
    | none => rw [hp] at h1; cases h1
    | some p =>
      unfold mkSponsorRow rowGetHard
      rw [hp, h2]

/-- Witness for C8: a one-row sponsors table with `nct_id` and no other
columns is processed without failure, while a row whose
`lead_or_collaborator` value is `NaN` fails with `AttributeError`. -/
theorem schema_check_and_optional_defaults_witness :
    (∀ row ∈ ([[("nct_id".data, some "NCT1".data)]] : List RowMap),
      (row.find? (fun p => p.1 == "nct_id".data)).isSome = true ∧
      (rowGet row "lead_or_collaborator".data).isSome = true) ∧
    (∃ out, transform_organizations_checked
      [[("nct_id".data, some "NCT1".data)]] = .ok out) ∧
    mkSponsorRow [("nct_id".data, some "NCT1".data),
        ("lead_or_collaborator".data, none)] = .error "AttributeError".data :=
  ⟨by decide,
    schema_check_and_optional_defaults.2.2.2.1
      [[("nct_id".data, some "NCT1".data)]] (by decide),
    schema_check_and_optional_defaults.2.2.2.2
      [("nct_id".data, some "NCT1".data), ("lead_or_collaborator".data, none)]
      (by decide) (by decide)⟩

end Pipeline

